import Mathlib

/-!
Verification of the pteros spatial-grid search and selection-query engine.

This file shallowly embeds the core of the repository:

* `src/src/core/grid_search.cpp` — the uniform-cell spatial grid with
  neighbour-list search (self pair search, "within distance of a set" search);
* `src/src/core/selection_parser.cpp` — the query tokenizer token
  recognizer, the recursive-descent grammar, the AST optimizer
  (`do_optimization`) and the AST evaluator (`eval_node` / `eval_numeric`);
* `src/src/core/distance_search/distance_search_within.cpp` — the two-stage
  within-search front end (`Distance_search_within_impl::setup`).

Modelling conventions.

* C++ `float` values are modelled by exact rationals `ℚ`.  All comparisons in
  the embedded code (`d <= cutoff`, `v == 0.0`, `floor(...)`) are therefore
  exact-real versions of the float comparisons of the source.  Distances are
  compared through their squares (`dist2 p q ≤ c*c` is equivalent, over the
  reals, to `‖p-q‖ ≤ c` for `c ≥ 0`), which is the exact criterion used by
  the source (`search_in_pair_of_cells` compares squared distances against
  `cutoff2`; `get_central_1`/`get_side_1` compare `.norm() <= cutoff`).
* Rational arithmetic is written with the kernel-computable wrappers
  `qadd`, `qsub`, `qmul`, `qdiv`, `qneg`, `qfloor` below; each is proved equal
  to the corresponding field operation on `ℚ` (the Batteries operations on
  `Rat` are `@[irreducible]`, which would make concrete evaluation of the
  embedded program impossible by `decide`).  `qdiv x 0 = 0` (Lean's
  convention); the embedded code never divides by zero on the paths the
  theorems below talk about, except where explicitly discussed.
* C++ code that can throw (`Pteros_error`) or that runs into undefined
  behaviour (out-of-bounds `std::vector` access, control flow falling off the
  end of a non-`void` function) is modelled in the `Except String` monad; an
  `.error` value marks exactly those spots.
* `std::sort` on `vector<int>` is modelled by `cppSort` (any comparison sort
  produces the same list on integers); `std::set_intersection`,
  `std::set_union`, `std::set_difference` and `std::unique` are modelled by
  the literal reference algorithms from the C++ standard, which is what
  libstdc++ executes also when the input ranges are *not* sorted — a case the
  repository does reach and which matters for claim C2 below.
-/

namespace Pteros

/-! ## Kernel-computable rational arithmetic -/

/-- Addition on `ℚ` through `Rat.divInt` (kernel-computable). -/
def qadd (a b : ℚ) : ℚ := Rat.divInt (a.num * b.den + b.num * a.den) (a.den * b.den)

/-- Subtraction on `ℚ` through `Rat.divInt` (kernel-computable). -/
def qsub (a b : ℚ) : ℚ := Rat.divInt (a.num * b.den - b.num * a.den) (a.den * b.den)

/-- Multiplication on `ℚ` through `Rat.divInt` (kernel-computable). -/
def qmul (a b : ℚ) : ℚ := Rat.divInt (a.num * b.num) (a.den * b.den)

/-- Division on `ℚ` through `Rat.divInt` (kernel-computable); `qdiv a 0 = 0`. -/
def qdiv (a b : ℚ) : ℚ := Rat.divInt (a.num * b.den) (a.den * b.num)

/-- Negation on `ℚ` through `Rat.divInt` (kernel-computable). -/
def qneg (a : ℚ) : ℚ := Rat.divInt (-a.num) a.den

/-- Floor of a rational as an integer (kernel-computable). -/
def qfloor (q : ℚ) : ℤ := q.num / q.den

theorem qadd_eq (a b : ℚ) : qadd a b = a + b := by
  rw [qadd, Rat.add_def', Rat.mkRat_eq_divInt]
  push_cast
  rfl

theorem qsub_eq (a b : ℚ) : qsub a b = a - b := by
  rw [qsub, Rat.sub_def', Rat.mkRat_eq_divInt]
  push_cast
  rfl

theorem qmul_eq (a b : ℚ) : qmul a b = a * b := by
  rw [qmul, Rat.mul_def, Rat.normalize_eq_mkRat, Rat.mkRat_eq_divInt]
  push_cast
  rfl

theorem qneg_eq (a : ℚ) : qneg a = -a := by
  rw [qneg, Rat.neg_def]

theorem qdiv_eq (a b : ℚ) : qdiv a b = a / b := by
  rw [qdiv, Rat.divInt_eq_div]
  rcases eq_or_ne b 0 with hb | hb
  · subst hb
    simp
  · have hbn : (b.num : ℚ) ≠ 0 := by
      exact_mod_cast Rat.num_ne_zero.mpr hb
    have had : (a.den : ℚ) ≠ 0 := by exact_mod_cast a.den_nz
    have hbd : (b.den : ℚ) ≠ 0 := by exact_mod_cast b.den_nz
    conv_rhs => rw [← Rat.num_div_den a, ← Rat.num_div_den b]
    push_cast
    field_simp

theorem qfloor_eq (q : ℚ) : qfloor q = ⌊q⌋ := (Rat.floor_def).symm

/-! ## The C++ list algorithms used by the evaluator -/

/-- Model of `std::sort` on a `vector<int>`: the ascending reordering.
(`std::sort` is an unstable comparison sort; on integers every correct
comparison sort returns the same list.) -/
def cppSort (l : List ℕ) : List ℕ := l.insertionSort (· ≤ ·)

/-- Model of `std::set_intersection` — the reference merge algorithm, which is
what libstdc++ executes on *any* input ranges, sorted or not.  The loop's
consecutive advance-second steps (`*first2 < *first1`) are grouped into one
`dropWhile`, making the recursion structural on the first range; the sequence
of comparisons and outputs is step-for-step that of the reference loop. -/
def setIntersectionCpp : List ℕ → List ℕ → List ℕ
  | [], _ => []
  | a :: as, bs =>
    match bs.dropWhile (· < a) with
    | [] => []
    | b :: bs2 =>
      if a < b then setIntersectionCpp as (b :: bs2)
      else a :: setIntersectionCpp as bs2

/-- Model of `std::set_union` — the reference merge algorithm, advance-second
steps grouped into `takeWhile`/`dropWhile` as in `setIntersectionCpp`. -/
def setUnionCpp : List ℕ → List ℕ → List ℕ
  | [], bs => bs
  | a :: as, bs =>
    bs.takeWhile (· < a) ++
      match bs.dropWhile (· < a) with
      | [] => a :: as
      | b :: bs2 =>
        if a < b then a :: setUnionCpp as (b :: bs2)
        else a :: setUnionCpp as bs2

/-- Model of `std::set_difference` — the reference merge algorithm,
advance-second steps grouped into `dropWhile` as in `setIntersectionCpp`. -/
def setDifferenceCpp : List ℕ → List ℕ → List ℕ
  | [], _ => []
  | a :: as, bs =>
    match bs.dropWhile (· < a) with
    | [] => a :: as
    | b :: bs2 =>
      if a < b then a :: setDifferenceCpp as (b :: bs2)
      else setDifferenceCpp as bs2

/-- Helper of `cppUnique`: drop the elements equal to the element just kept. -/
def cppUniqueGo (prev : ℕ) : List ℕ → List ℕ
  | [] => []
  | b :: rest => if b = prev then cppUniqueGo prev rest else b :: cppUniqueGo b rest

/-- Model of `std::unique` followed by the `resize` idiom: drop adjacent
duplicates, keeping the first element of every run. -/
def cppUnique : List ℕ → List ℕ
  | [] => []
  | a :: rest => a :: cppUniqueGo a rest

theorem cppSort_sorted (l : List ℕ) : List.Sorted (· ≤ ·) (cppSort l) :=
  List.sorted_insertionSort (· ≤ ·) l

theorem cppSort_perm (l : List ℕ) : List.Perm (cppSort l) l :=
  List.perm_insertionSort (· ≤ ·) l

theorem mem_cppSort {a : ℕ} {l : List ℕ} : a ∈ cppSort l ↔ a ∈ l :=
  (cppSort_perm l).mem_iff

theorem mem_cons_cppUniqueGo {x : ℕ} :
    ∀ {l : List ℕ} {prev : ℕ}, x ∈ prev :: cppUniqueGo prev l ↔ x ∈ prev :: l
  | [], _ => Iff.rfl
  | b :: rest, prev => by
    rw [cppUniqueGo]
    split
    · next h =>
      subst h
      rw [mem_cons_cppUniqueGo (l := rest)]
      simp
    · next h =>
      constructor
      · intro hx
        rcases List.mem_cons.1 hx with hx | hx
        · exact hx ▸ List.mem_cons_self ..
        · rcases List.mem_cons.1 (mem_cons_cppUniqueGo.1 hx) with hx | hx
          · simp [hx]
          · simp [List.mem_cons_of_mem _ hx]
      · intro hx
        rcases List.mem_cons.1 hx with hx | hx
        · exact hx ▸ List.mem_cons_self ..
        · rcases List.mem_cons.1 hx with hx | hx
          · exact List.mem_cons_of_mem _ (mem_cons_cppUniqueGo.2 (hx ▸ List.mem_cons_self ..))
          · exact List.mem_cons_of_mem _ (mem_cons_cppUniqueGo.2 (List.mem_cons_of_mem _ hx))

theorem mem_cppUnique {a : ℕ} : ∀ {l : List ℕ}, a ∈ cppUnique l ↔ a ∈ l
  | [] => Iff.rfl
  | b :: rest => by
    rw [cppUnique]
    exact mem_cons_cppUniqueGo

/-! ## Points and distances -/

/-- A 3D point (the coordinates of one atom), `Eigen::Vector3f` in the source. -/
structure Vec3 where
  x : ℚ
  y : ℚ
  z : ℚ
deriving DecidableEq

/-- Squared Euclidean distance between two points.  The source compares either
`(p-q).norm() <= cutoff` or `(p-q).squaredNorm() <= cutoff*cutoff`; over the
reals the two tests agree for `cutoff ≥ 0`, and we uniformly embed the squared
form. -/
def dist2 (p q : Vec3) : ℚ :=
  qadd (qadd (qmul (qsub p.x q.x) (qsub p.x q.x)) (qmul (qsub p.y q.y) (qsub p.y q.y)))
    (qmul (qsub p.z q.z) (qsub p.z q.z))

theorem dist2_eq (p q : Vec3) :
    dist2 p q = (p.x - q.x)^2 + (p.y - q.y)^2 + (p.z - q.z)^2 := by
  simp [dist2, qadd_eq, qsub_eq, qmul_eq]
  ring

theorem dist2_comm (p q : Vec3) : dist2 p q = dist2 q p := by
  rw [dist2_eq, dist2_eq]
  ring

theorem dist2_nonneg (p q : Vec3) : 0 ≤ dist2 p q := by
  rw [dist2_eq]
  positivity

/-! ## Grid binning (`Grid_searcher::populate_grid`, non-periodic variant)

`create_grid` computes the bounding box of the selection, pads it by `cutoff`
on every side (the halo), and `populate_grid` assigns atom `i` to the cell
`(n1,n2,n3)` with `nA = floor(NgridA*(coor(A)-min(A))/(max(A)-min(A)))`,
silently discarding the atom when any `nA` falls outside `[0,NgridA)`.
With the claims quantifying over the cell counts, the counts `Nx,Ny,Nz` are
parameters here (in the source they come from `set_grid_size`, a
floating-point cube-root computation). -/

/-- The scaled-floor cell index of coordinate `v` along one axis. -/
def binIdx (n : ℕ) (mn mx v : ℚ) : ℤ :=
  qfloor (qdiv (qmul (Rat.divInt n 1) (qsub v mn)) (qsub mx mn))

/-- A grid cell address. -/
abbrev Cell := ℕ × ℕ × ℕ

/-- Componentwise minimum of two points. -/
def vmin (a b : Vec3) : Vec3 :=
  ⟨if a.x ≤ b.x then a.x else b.x, if a.y ≤ b.y then a.y else b.y,
   if a.z ≤ b.z then a.z else b.z⟩

/-- Componentwise maximum of two points. -/
def vmax (a b : Vec3) : Vec3 :=
  ⟨if a.x ≤ b.x then b.x else a.x, if a.y ≤ b.y then b.y else a.y,
   if a.z ≤ b.z then b.z else a.z⟩

/-- Bounding box of a point list (`Selection::minmax`; its body lives in the
excluded `selection.cpp`, spec §4.1: the componentwise min/max of the
coordinates).  For the empty list — a case no claim exercises — it returns the
degenerate box at the origin. -/
def minmaxPts : List Vec3 → Vec3 × Vec3
  | [] => (⟨0, 0, 0⟩, ⟨0, 0, 0⟩)
  | p :: ps => ps.foldl (fun acc q => (vmin acc.1 q, vmax acc.2 q)) (p, p)

/-- Pad a bounding box by `cutoff` on every side (the halo of `create_grid`). -/
def haloBox (c : ℚ) (b : Vec3 × Vec3) : Vec3 × Vec3 :=
  (⟨qsub b.1.x c, qsub b.1.y c, qsub b.1.z c⟩,
   ⟨qadd b.2.x c, qadd b.2.y c, qadd b.2.z c⟩)

/-- Cell of a point, or `none` when the point falls outside the grid and is
discarded (the `continue` branches of `populate_grid`). -/
def cellOf (mn mx : Vec3) (Nx Ny Nz : ℕ) (p : Vec3) : Option Cell :=
  if 0 ≤ binIdx Nx mn.x mx.x p.x ∧ binIdx Nx mn.x mx.x p.x < (Nx : ℤ) then
    if 0 ≤ binIdx Ny mn.y mx.y p.y ∧ binIdx Ny mn.y mx.y p.y < (Ny : ℤ) then
      if 0 ≤ binIdx Nz mn.z mx.z p.z ∧ binIdx Nz mn.z mx.z p.z < (Nz : ℤ) then
        some ((binIdx Nx mn.x mx.x p.x).toNat, (binIdx Ny mn.y mx.y p.y).toNat,
          (binIdx Nz mn.z mx.z p.z).toNat)
      else none
    else none
  else none

/-- Contents of one grid cell after `populate_grid`: the loop pushes atom
indices `i = 0,1,…` in order, so each cell holds the ascending list of the
indices binned to it. -/
def gridCell (pts : List Vec3) (mn mx : Vec3) (Nx Ny Nz : ℕ) (c : Cell) : List ℕ :=
  (List.range pts.length).filter
    (fun i => cellOf mn mx Nx Ny Nz (pts.getD i ⟨0, 0, 0⟩) = some c)

/-- Non-periodic neighbour list (`Grid_searcher::get_nlist` /
`get_nlist_local`, `!is_periodic` branch): the up-to-26 adjacent cells, with
out-of-range cells clipped and the central cell excluded, in the loop order of
the source (`c1` outer, `c2`, `c3` inner).  The per-axis `continue` bound
checks of the source are gathered into the one condition of the innermost
loop body; the same cells are emitted in the same order. -/
def nlistNP (Nx Ny Nz : ℕ) (c : Cell) : List Cell :=
  ([-1, 0, 1] : List ℤ).flatMap fun d1 =>
    ([-1, 0, 1] : List ℤ).flatMap fun d2 =>
      ([-1, 0, 1] : List ℤ).filterMap fun d3 =>
        let n1 := (c.1 : ℤ) + d1
        let n2 := (c.2.1 : ℤ) + d2
        let n3 := (c.2.2 : ℤ) + d3
        if 0 ≤ n1 ∧ n1 < (Nx : ℤ) ∧ 0 ≤ n2 ∧ n2 < (Ny : ℤ) ∧ 0 ≤ n3 ∧ n3 < (Nz : ℤ) ∧
            ¬(n1.toNat = c.1 ∧ n2.toNat = c.2.1 ∧ n3.toNat = c.2.2) then
          some (n1.toNat, n2.toNat, n3.toNat)
        else none

/-- All grid cells in the iteration order of `do_search` (`i` outer, `j`
middle, `k` inner). -/
def lexCells (Nx Ny Nz : ℕ) : List Cell :=
  (List.range Nx).flatMap fun i =>
    (List.range Ny).flatMap fun j =>
      (List.range Nz).map fun k => (i, j, k)

/-! ## The self pair search (`do_search` one-selection variant, serial path)

The claims are about the produced pair *set*; the parallel path of
`do_search` emits the same pairs in a partition-dependent order, so the
embedded serial path (`nt==1`) represents both for set-level statements. -/

/-- Pairs from one cell (`get_central_1`): positions `c1 < c2` of the cell
list, filtered by the distance test. -/
def centralPairs (pts : List Vec3) (c2 : ℚ) : List ℕ → List (ℕ × ℕ)
  | [] => []
  | a :: rest =>
    (rest.filterMap fun b =>
      if dist2 (pts.getD a ⟨0, 0, 0⟩) (pts.getD b ⟨0, 0, 0⟩) ≤ c2 then some (a, b) else none)
      ++ centralPairs pts c2 rest

/-- Pairs between two distinct cells (`get_side_1`): the full product of the
two cell lists, filtered by the distance test. -/
def sidePairs (pts : List Vec3) (c2 : ℚ) (l1 l2 : List ℕ) : List (ℕ × ℕ) :=
  l1.flatMap fun a =>
    l2.filterMap fun b =>
      if dist2 (pts.getD a ⟨0, 0, 0⟩) (pts.getD b ⟨0, 0, 0⟩) ≤ c2 then some (a, b) else none

/-- The serial cell sweep of `do_search`: process cells in order, keeping the
`visited` set; for each cell emit its central pairs, mark it visited, then
emit side pairs against every not-yet-visited neighbour. -/
def doSearchGo (pts : List Vec3) (mn mx : Vec3) (Nx Ny Nz : ℕ) (c2 : ℚ) :
    List Cell → List Cell → List (ℕ × ℕ)
  | [], _ => []
  | c :: rest, visited =>
    let cl := gridCell pts mn mx Nx Ny Nz c
    let vis' := c :: visited
    centralPairs pts c2 cl
      ++ ((nlistNP Nx Ny Nz c).filter (fun n => ¬ n ∈ vis')).flatMap
          (fun n => sidePairs pts c2 cl (gridCell pts mn mx Nx Ny Nz n))
      ++ doSearchGo pts mn mx Nx Ny Nz c2 rest vis'

/-- The non-periodic self search (`Grid_searcher` single-selection
constructor): build the halo-padded box, bin all points, and sweep the cells.
`Nx,Ny,Nz` are the cell counts (chosen by `set_grid_size` in the source). -/
def gridSelfSearchNP (c : ℚ) (pts : List Vec3) (Nx Ny Nz : ℕ) : List (ℕ × ℕ) :=
  let b := haloBox c (minmaxPts pts)
  doSearchGo pts b.1 b.2 Nx Ny Nz (qmul c c) (lexCells Nx Ny Nz) []

/-- Unordered-pair normal form: the smaller index first. -/
def normPair (p : ℕ × ℕ) : ℕ × ℕ := (min p.1 p.2, max p.1 p.2)

/-- A pair list as a set of unordered pairs. -/
def pairFinset (l : List (ℕ × ℕ)) : Finset (ℕ × ℕ) := (l.map normPair).toFinset

/-- The brute-force all-pairs reference: all `i < j` with squared distance at
most `c²`. -/
def brutePairs (c : ℚ) (pts : List Vec3) : Finset (ℕ × ℕ) :=
  (Finset.range pts.length ×ˢ Finset.range pts.length).filter
    (fun p => p.1 < p.2 ∧
      dist2 (pts.getD p.1 ⟨0, 0, 0⟩) (pts.getD p.2 ⟨0, 0, 0⟩) ≤ qmul c c)

/-! ## Lemmas about the grid structures -/

theorem mem_gridCell {pts : List Vec3} {mn mx : Vec3} {Nx Ny Nz : ℕ} {c : Cell} {i : ℕ} :
    i ∈ gridCell pts mn mx Nx Ny Nz c ↔
      i < pts.length ∧ cellOf mn mx Nx Ny Nz (pts.getD i ⟨0, 0, 0⟩) = some c := by
  simp [gridCell]

theorem gridCell_pairwise (pts : List Vec3) (mn mx : Vec3) (Nx Ny Nz : ℕ) (c : Cell) :
    List.Pairwise (· < ·) (gridCell pts mn mx Nx Ny Nz c) :=
  (List.pairwise_lt_range pts.length).filter _

theorem mem_sidePairs {pts : List Vec3} {c2 : ℚ} {l1 l2 : List ℕ} {a b : ℕ} :
    (a, b) ∈ sidePairs pts c2 l1 l2 ↔
      a ∈ l1 ∧ b ∈ l2 ∧ dist2 (pts.getD a ⟨0, 0, 0⟩) (pts.getD b ⟨0, 0, 0⟩) ≤ c2 := by
  simp only [sidePairs, List.mem_flatMap, List.mem_filterMap,
    Option.ite_none_right_eq_some, Option.some.injEq, Prod.mk.injEq]
  constructor
  · rintro ⟨x, hx, y, hy, hd, hxa, hyb⟩
    subst hxa
    subst hyb
    exact ⟨hx, hy, hd⟩
  · rintro ⟨ha, hb, hd⟩
    exact ⟨a, ha, b, hb, hd, rfl, rfl⟩

theorem centralPairs_sound {pts : List Vec3} {c2 : ℚ} :
    ∀ {l : List ℕ}, List.Pairwise (· < ·) l → ∀ {p : ℕ × ℕ}, p ∈ centralPairs pts c2 l →
      p.1 ∈ l ∧ p.2 ∈ l ∧ p.1 < p.2 ∧
        dist2 (pts.getD p.1 ⟨0, 0, 0⟩) (pts.getD p.2 ⟨0, 0, 0⟩) ≤ c2
  | [], _, p, hp => by simp [centralPairs] at hp
  | a :: rest, hl, p, hp => by
    rw [centralPairs, List.mem_append] at hp
    rcases hp with hp | hp
    · simp only [List.mem_filterMap, Option.ite_none_right_eq_some, Option.some.injEq] at hp
      obtain ⟨b, hb, hd, hpb⟩ := hp
      subst hpb
      exact ⟨List.mem_cons_self .., List.mem_cons_of_mem _ hb,
        List.rel_of_pairwise_cons hl hb, hd⟩
    · obtain ⟨h1, h2, h3, h4⟩ := centralPairs_sound hl.of_cons hp
      exact ⟨List.mem_cons_of_mem _ h1, List.mem_cons_of_mem _ h2, h3, h4⟩

theorem centralPairs_complete {pts : List Vec3} {c2 : ℚ} :
    ∀ {l : List ℕ}, List.Pairwise (· < ·) l → ∀ {a b : ℕ}, a ∈ l → b ∈ l → a < b →
      dist2 (pts.getD a ⟨0, 0, 0⟩) (pts.getD b ⟨0, 0, 0⟩) ≤ c2 →
      (a, b) ∈ centralPairs pts c2 l
  | [], _, a, b, ha, _, _, _ => by simp at ha
  | x :: rest, hl, a, b, ha, hb, hab, hd => by
    rw [centralPairs, List.mem_append]
    rcases List.mem_cons.1 ha with hax | har
    · subst hax
      have hbr : b ∈ rest := by
        rcases List.mem_cons.1 hb with hbx | hbr
        · omega
        · exact hbr
      left
      simp only [List.mem_filterMap, Option.ite_none_right_eq_some, Option.some.injEq]
      exact ⟨b, hbr, hd, rfl⟩
    · have hbr : b ∈ rest := by
        rcases List.mem_cons.1 hb with hbx | hbr
        · subst hbx
          exact absurd (List.rel_of_pairwise_cons hl har) (by omega)
        · exact hbr
      exact Or.inr (centralPairs_complete hl.of_cons har hbr hab hd)

theorem mem_nlistNP {Nx Ny Nz : ℕ} {c n : Cell} :
    n ∈ nlistNP Nx Ny Nz c ↔
      n.1 < Nx ∧ n.2.1 < Ny ∧ n.2.2 < Nz ∧
      ((n.1 : ℤ) - (c.1 : ℤ)).natAbs ≤ 1 ∧ ((n.2.1 : ℤ) - (c.2.1 : ℤ)).natAbs ≤ 1 ∧
      ((n.2.2 : ℤ) - (c.2.2 : ℤ)).natAbs ≤ 1 ∧ n ≠ c := by
  obtain ⟨c1, c2, c3⟩ := c
  obtain ⟨n1, n2, n3⟩ := n
  simp only [nlistNP, List.mem_flatMap, List.mem_filterMap, List.mem_cons,
    List.not_mem_nil, or_false, Option.ite_none_right_eq_some, Option.some.injEq,
    Prod.mk.injEq, ne_eq, not_and]
  constructor
  · rintro ⟨d1, hd1, d2, hd2, d3, hd3, ⟨hb1, hb2, hb3, hb4, hb5, hb6, hne⟩, he1, he2, he3⟩
    refine ⟨by omega, by omega, by omega, by omega, by omega, by omega, ?_⟩
    intro h1 h2
    omega
  · rintro ⟨h1, h2, h3, h4, h5, h6, hne⟩
    refine ⟨(n1 : ℤ) - c1, by omega, (n2 : ℤ) - c2, by omega, (n3 : ℤ) - c3, by omega,
      ⟨by omega, by omega, by omega, by omega, by omega, by omega, ?_⟩, by omega, by omega,
      by omega⟩
    intro g1 g2
    omega

theorem mem_lexCells {Nx Ny Nz : ℕ} {c : Cell} :
    c ∈ lexCells Nx Ny Nz ↔ c.1 < Nx ∧ c.2.1 < Ny ∧ c.2.2 < Nz := by
  obtain ⟨c1, c2, c3⟩ := c
  simp only [lexCells, List.mem_flatMap, List.mem_map, List.mem_range, Prod.mk.injEq]
  constructor
  · rintro ⟨i, hi, j, hj, k, hk, h1, h2, h3⟩
    subst h1; subst h2; subst h3
    exact ⟨hi, hj, hk⟩
  · rintro ⟨h1, h2, h3⟩
    exact ⟨c1, h1, c2, h2, c3, h3, rfl, rfl, rfl⟩

theorem lexCells_nodup (Nx Ny Nz : ℕ) : (lexCells Nx Ny Nz).Nodup := by
  rw [lexCells, List.nodup_flatMap]
  constructor
  · intro i _
    rw [List.nodup_flatMap]
    constructor
    · intro j _
      exact (List.nodup_range Nz).map (fun a b h => by
        simpa using congrArg (fun p : Cell => p.2.2) h)
    · refine (List.pairwise_lt_range Ny).imp ?_
      intro j j' hjj x hx hx'
      simp only [List.mem_map, List.mem_range] at hx hx'
      obtain ⟨k, _, hk⟩ := hx
      obtain ⟨k', _, hk'⟩ := hx'
      subst hk
      obtain ⟨-, h2, -⟩ := Prod.mk.injEq .. ▸ hk'
      omega
  · refine (List.pairwise_lt_range Nx).imp ?_
    intro i i' hii x hx hx'
    simp only [List.mem_flatMap, List.mem_map, List.mem_range] at hx hx'
    obtain ⟨j, _, k, _, hk⟩ := hx
    obtain ⟨j', _, k', _, hk'⟩ := hx'
    subst hk
    obtain ⟨h1, -, -⟩ := Prod.mk.injEq .. ▸ hk'
    omega

theorem doSearchGo_sound {pts : List Vec3} {mn mx : Vec3} {Nx Ny Nz : ℕ} {c2 : ℚ} :
    ∀ {L vis : List Cell} {p : ℕ × ℕ}, p ∈ doSearchGo pts mn mx Nx Ny Nz c2 L vis →
      ∃ ca ∈ L, p ∈ centralPairs pts c2 (gridCell pts mn mx Nx Ny Nz ca) ∨
        ∃ cb ∈ nlistNP Nx Ny Nz ca,
          p ∈ sidePairs pts c2 (gridCell pts mn mx Nx Ny Nz ca) (gridCell pts mn mx Nx Ny Nz cb)
  | [], _, p, hp => by simp [doSearchGo] at hp
  | c :: rest, vis, p, hp => by
    rw [doSearchGo, List.mem_append, List.mem_append] at hp
    rcases hp with (hp | hp) | hp
    · exact ⟨c, List.mem_cons_self .., Or.inl hp⟩
    · rw [List.mem_flatMap] at hp
      obtain ⟨cb, hcb, hps⟩ := hp
      exact ⟨c, List.mem_cons_self .., Or.inr ⟨cb, (List.mem_filter.1 hcb).1, hps⟩⟩
    · obtain ⟨ca, hca, h⟩ := doSearchGo_sound hp
      exact ⟨ca, List.mem_cons_of_mem _ hca, h⟩

theorem doSearchGo_central_mem {pts : List Vec3} {mn mx : Vec3} {Nx Ny Nz : ℕ} {c2 : ℚ} :
    ∀ {L vis : List Cell} {ca : Cell} {p : ℕ × ℕ}, ca ∈ L →
      p ∈ centralPairs pts c2 (gridCell pts mn mx Nx Ny Nz ca) →
      p ∈ doSearchGo pts mn mx Nx Ny Nz c2 L vis
  | [], _, ca, p, hca, _ => by simp at hca
  | c :: rest, vis, ca, p, hca, hp => by
    rw [doSearchGo, List.mem_append, List.mem_append]
    rcases List.mem_cons.1 hca with hc | hc
    · subst hc
      exact Or.inl (Or.inl hp)
    · exact Or.inr (doSearchGo_central_mem hc hp)

theorem doSearchGo_side_mem {pts : List Vec3} {mn mx : Vec3} {Nx Ny Nz : ℕ} {c2 : ℚ} :
    ∀ (L vis : List Cell) {ca cb : Cell} {i j : ℕ}, L.Nodup → (∀ v ∈ vis, v ∉ L) →
      ca ∈ L → cb ∈ L → cb ∈ nlistNP Nx Ny Nz ca → ca ∈ nlistNP Nx Ny Nz cb →
      i ∈ gridCell pts mn mx Nx Ny Nz ca → j ∈ gridCell pts mn mx Nx Ny Nz cb →
      dist2 (pts.getD i ⟨0, 0, 0⟩) (pts.getD j ⟨0, 0, 0⟩) ≤ c2 →
      (i, j) ∈ doSearchGo pts mn mx Nx Ny Nz c2 L vis ∨
        (j, i) ∈ doSearchGo pts mn mx Nx Ny Nz c2 L vis
  | [], _, ca, cb, i, j, _, _, hca, _, _, _, _, _, _ => by simp at hca
  | c :: rest, vis, ca, cb, i, j, hnd, hvis, hca, hcb, hnb, hnb', hi, hj, hd => by
    have hne : ca ≠ cb := (mem_nlistNP.1 hnb).2.2.2.2.2.2.symm
    rcases List.mem_cons.1 hca with hc | hc
    · -- the head cell is `ca`: its side search against `cb` runs now
      subst hc
      left
      rw [doSearchGo, List.mem_append, List.mem_append]
      refine Or.inl (Or.inr ?_)
      rw [List.mem_flatMap]
      have hcbrest : cb ∈ rest := by
        rcases List.mem_cons.1 hcb with h | h
        · exact absurd h.symm hne
        · exact h
      have hnotv : cb ∉ ca :: vis := by
        intro hv
        rcases List.mem_cons.1 hv with h | h
        · exact hne h.symm
        · exact hvis cb h (List.mem_cons_of_mem _ hcbrest)
      exact ⟨cb, List.mem_filter.2 ⟨hnb, by simpa using hnotv⟩, mem_sidePairs.2 ⟨hi, hj, hd⟩⟩
    · rcases List.mem_cons.1 hcb with hcbc | hcbrest
      · -- the head cell is `cb`: it searches against `ca`, emitting `(j, i)`
        subst hcbc
        right
        rw [doSearchGo, List.mem_append, List.mem_append]
        refine Or.inl (Or.inr ?_)
        rw [List.mem_flatMap]
        have hnotv : ca ∉ cb :: vis := by
          intro hv
          rcases List.mem_cons.1 hv with h | h
          · exact hne h
          · exact hvis ca h (List.mem_cons_of_mem _ hc)
        exact ⟨ca, List.mem_filter.2 ⟨hnb', by simpa using hnotv⟩,
          mem_sidePairs.2 ⟨hj, hi, by rwa [dist2_comm]⟩⟩
      · -- both cells lie in the tail
        have hvis' : ∀ v ∈ c :: vis, v ∉ rest := by
          intro v hv
          rcases List.mem_cons.1 hv with h | h
          · subst h
            exact (List.nodup_cons.1 hnd).1
          · intro hr
            exact hvis v h (List.mem_cons_of_mem _ hr)
        rcases doSearchGo_side_mem rest (c :: vis) (List.nodup_cons.1 hnd).2 hvis' hc hcbrest
          hnb hnb' hi hj hd with h | h
        · left
          rw [doSearchGo, List.mem_append]
          exact Or.inr h
        · right
          rw [doSearchGo, List.mem_append]
          exact Or.inr h

/-! ## Binning bounds and adjacency -/

theorem binIdx_eq_floor (n : ℕ) (mn mx v : ℚ) :
    binIdx n mn mx v = ⌊(n : ℚ) * (v - mn) / (mx - mn)⌋ := by
  rw [binIdx, qfloor_eq, qdiv_eq, qmul_eq, qsub_eq, qsub_eq, Rat.divInt_eq_div]
  norm_num

theorem binIdx_bounds {n : ℕ} {mn mx v : ℚ} (hn : 1 ≤ n) (hlo : mn < v) (hhi : v < mx) :
    0 ≤ binIdx n mn mx v ∧ binIdx n mn mx v < (n : ℤ) := by
  rw [binIdx_eq_floor]
  have hw : (0 : ℚ) < mx - mn := by linarith
  have hnq : (0 : ℚ) < (n : ℚ) := by exact_mod_cast hn
  constructor
  · rw [Int.floor_nonneg]
    apply div_nonneg _ hw.le
    apply mul_nonneg hnq.le
    linarith
  · rw [Int.floor_lt]
    push_cast
    rw [div_lt_iff₀ hw]
    nlinarith

theorem binIdx_adjacent {n : ℕ} {mn mx u v : ℚ} (hw : 0 < mx - mn)
    (hsize : (n : ℚ) * |u - v| ≤ mx - mn) :
    binIdx n mn mx u ≤ binIdx n mn mx v + 1 := by
  rw [binIdx_eq_floor, binIdx_eq_floor]
  have habs : u - v ≤ |u - v| := le_abs_self _
  have hnq : (0 : ℚ) ≤ (n : ℚ) := by positivity
  have h2 : (n : ℚ) * (u - mn) ≤ (n : ℚ) * (v - mn) + (mx - mn) := by nlinarith
  have key : (n : ℚ) * (u - mn) / (mx - mn) ≤ (n : ℚ) * (v - mn) / (mx - mn) + 1 := by
    rw [div_add' _ _ _ (ne_of_gt hw), div_le_div_iff₀ hw hw]
    nlinarith
  calc ⌊(n : ℚ) * (u - mn) / (mx - mn)⌋
      ≤ ⌊(n : ℚ) * (v - mn) / (mx - mn) + 1⌋ := Int.floor_le_floor key
    _ = ⌊(n : ℚ) * (v - mn) / (mx - mn)⌋ + 1 := Int.floor_add_one _

/-- Componentwise order on points. -/
def vecLE (a b : Vec3) : Prop := a.x ≤ b.x ∧ a.y ≤ b.y ∧ a.z ≤ b.z

theorem vecLE_refl (a : Vec3) : vecLE a a := ⟨le_refl _, le_refl _, le_refl _⟩

theorem vecLE_trans {a b c : Vec3} (h1 : vecLE a b) (h2 : vecLE b c) : vecLE a c :=
  ⟨h1.1.trans h2.1, h1.2.1.trans h2.2.1, h1.2.2.trans h2.2.2⟩

theorem vmin_le_left (a b : Vec3) : vecLE (vmin a b) a := by
  unfold vecLE vmin
  refine ⟨?_, ?_, ?_⟩ <;> dsimp only <;> split <;> first | rfl | linarith

theorem vmin_le_right (a b : Vec3) : vecLE (vmin a b) b := by
  unfold vecLE vmin
  refine ⟨?_, ?_, ?_⟩ <;> dsimp only <;> split <;> first | assumption | rfl

theorem le_vmax_left (a b : Vec3) : vecLE a (vmax a b) := by
  unfold vecLE vmax
  refine ⟨?_, ?_, ?_⟩ <;> dsimp only <;> split <;> first | assumption | rfl

theorem le_vmax_right (a b : Vec3) : vecLE b (vmax a b) := by
  unfold vecLE vmax
  refine ⟨?_, ?_, ?_⟩ <;> dsimp only <;> split <;> first | rfl | linarith

theorem foldl_minmax_bounds :
    ∀ (ps : List Vec3) (a b : Vec3),
      vecLE (ps.foldl (fun acc q => (vmin acc.1 q, vmax acc.2 q)) (a, b)).1 a ∧
      vecLE b (ps.foldl (fun acc q => (vmin acc.1 q, vmax acc.2 q)) (a, b)).2 ∧
      ∀ q ∈ ps,
        vecLE (ps.foldl (fun acc q => (vmin acc.1 q, vmax acc.2 q)) (a, b)).1 q ∧
        vecLE q (ps.foldl (fun acc q => (vmin acc.1 q, vmax acc.2 q)) (a, b)).2
  | [], a, b => ⟨vecLE_refl a, vecLE_refl b, by simp⟩
  | p :: ps, a, b => by
    obtain ⟨h1, h2, h3⟩ := foldl_minmax_bounds ps (vmin a p) (vmax b p)
    rw [List.foldl_cons]
    refine ⟨vecLE_trans h1 (vmin_le_left a p), vecLE_trans (le_vmax_left b p) h2, ?_⟩
    intro q hq
    rcases List.mem_cons.1 hq with hq | hq
    · subst hq
      exact ⟨vecLE_trans h1 (vmin_le_right a q), vecLE_trans (le_vmax_right b q) h2⟩
    · exact h3 q hq

theorem minmaxPts_bounds {pts : List Vec3} {p : Vec3} (hp : p ∈ pts) :
    vecLE (minmaxPts pts).1 p ∧ vecLE p (minmaxPts pts).2 := by
  cases pts with
  | nil => simp at hp
  | cons a ps =>
    obtain ⟨h1, h2, h3⟩ := foldl_minmax_bounds ps a a
    rcases List.mem_cons.1 hp with hq | hq
    · subst hq
      exact ⟨h1, h2⟩
    · exact h3 p hq

/-- With a positive cutoff, every point of the set lies strictly inside the
halo-padded bounding box, so `populate_grid` bins it (no discard). -/
theorem haloBox_strict {pts : List Vec3} {p : Vec3} {c : ℚ} (hp : p ∈ pts) (hc : 0 < c) :
    (haloBox c (minmaxPts pts)).1.x < p.x ∧ p.x < (haloBox c (minmaxPts pts)).2.x ∧
    (haloBox c (minmaxPts pts)).1.y < p.y ∧ p.y < (haloBox c (minmaxPts pts)).2.y ∧
    (haloBox c (minmaxPts pts)).1.z < p.z ∧ p.z < (haloBox c (minmaxPts pts)).2.z := by
  obtain ⟨⟨l1, l2, l3⟩, r1, r2, r3⟩ := minmaxPts_bounds hp
  simp only [haloBox, qsub_eq, qadd_eq]
  refine ⟨by linarith, by linarith, by linarith, by linarith, by linarith, by linarith⟩

theorem cellOf_total {mn mx : Vec3} {Nx Ny Nz : ℕ} {p : Vec3}
    (hNx : 1 ≤ Nx) (hNy : 1 ≤ Ny) (hNz : 1 ≤ Nz)
    (h1 : mn.x < p.x) (h2 : p.x < mx.x) (h3 : mn.y < p.y) (h4 : p.y < mx.y)
    (h5 : mn.z < p.z) (h6 : p.z < mx.z) :
    cellOf mn mx Nx Ny Nz p =
      some ((binIdx Nx mn.x mx.x p.x).toNat, (binIdx Ny mn.y mx.y p.y).toNat,
        (binIdx Nz mn.z mx.z p.z).toNat) := by
  obtain ⟨hx0, hx1⟩ := binIdx_bounds hNx h1 h2
  obtain ⟨hy0, hy1⟩ := binIdx_bounds hNy h3 h4
  obtain ⟨hz0, hz1⟩ := binIdx_bounds hNz h5 h6
  rw [cellOf]
  rw [if_pos ⟨hx0, hx1⟩, if_pos ⟨hy0, hy1⟩, if_pos ⟨hz0, hz1⟩]

/-- Per-axis coordinate gap, bounded by the distance. -/
theorem abs_comp_le_of_dist2_le {p q : Vec3} {c : ℚ} (hc : 0 ≤ c)
    (h : dist2 p q ≤ qmul c c) :
    |p.x - q.x| ≤ c ∧ |p.y - q.y| ≤ c ∧ |p.z - q.z| ≤ c := by
  rw [dist2_eq, qmul_eq] at h
  refine ⟨?_, ?_, ?_⟩ <;>
    nlinarith [sq_abs (p.x - q.x), sq_abs (p.y - q.y), sq_abs (p.z - q.z),
      abs_nonneg (p.x - q.x), abs_nonneg (p.y - q.y), abs_nonneg (p.z - q.z),
      sq_nonneg (p.x - q.x), sq_nonneg (p.y - q.y), sq_nonneg (p.z - q.z)]

theorem mem_pairFinset {l : List (ℕ × ℕ)} {q : ℕ × ℕ} :
    q ∈ pairFinset l ↔ ∃ p ∈ l, normPair p = q := by
  simp [pairFinset]

theorem normPair_lt {a b : ℕ} (h : a < b) : normPair (a, b) = (a, b) ∧ normPair (b, a) = (a, b) := by
  unfold normPair
  constructor <;> simp only [Prod.mk.injEq] <;> omega

theorem mem_brutePairs {c : ℚ} {pts : List Vec3} {i j : ℕ} :
    (i, j) ∈ brutePairs c pts ↔
      i < pts.length ∧ j < pts.length ∧ i < j ∧
      dist2 (pts.getD i ⟨0, 0, 0⟩) (pts.getD j ⟨0, 0, 0⟩) ≤ qmul c c := by
  simp only [brutePairs, Finset.mem_filter, Finset.mem_product, Finset.mem_range]
  tauto

/-- Lower corner of the halo-padded search box of the self search. -/
def searchMin (c : ℚ) (pts : List Vec3) : Vec3 := (haloBox c (minmaxPts pts)).1

/-- Upper corner of the halo-padded search box of the self search. -/
def searchMax (c : ℚ) (pts : List Vec3) : Vec3 := (haloBox c (minmaxPts pts)).2

theorem gridSelfSearchNP_eq (c : ℚ) (pts : List Vec3) (Nx Ny Nz : ℕ) :
    gridSelfSearchNP c pts Nx Ny Nz =
      doSearchGo pts (searchMin c pts) (searchMax c pts) Nx Ny Nz (qmul c c)
        (lexCells Nx Ny Nz) [] := rfl

theorem searchBox_strict {pts : List Vec3} {p : Vec3} {c : ℚ} (hp : p ∈ pts) (hc : 0 < c) :
    (searchMin c pts).x < p.x ∧ p.x < (searchMax c pts).x ∧
    (searchMin c pts).y < p.y ∧ p.y < (searchMax c pts).y ∧
    (searchMin c pts).z < p.z ∧ p.z < (searchMax c pts).z := by
  obtain ⟨h1, h2, h3, h4, h5, h6⟩ := haloBox_strict hp hc
  exact ⟨h1, h2, h3, h4, h5, h6⟩

/-- The cell a point of the set is binned to. -/
def ptCell (c : ℚ) (pts : List Vec3) (Nx Ny Nz : ℕ) (p : Vec3) : Cell :=
  ((binIdx Nx (searchMin c pts).x (searchMax c pts).x p.x).toNat,
   (binIdx Ny (searchMin c pts).y (searchMax c pts).y p.y).toNat,
   (binIdx Nz (searchMin c pts).z (searchMax c pts).z p.z).toNat)

theorem getD_mem {pts : List Vec3} {i : ℕ} (hi : i < pts.length) :
    pts.getD i ⟨0, 0, 0⟩ ∈ pts := by
  rw [List.getD_eq_getElem _ _ hi]
  exact List.getElem_mem _

theorem ptCell_1 (c : ℚ) (pts : List Vec3) (Nx Ny Nz : ℕ) (p : Vec3) :
    (ptCell c pts Nx Ny Nz p).1 =
      (binIdx Nx (searchMin c pts).x (searchMax c pts).x p.x).toNat := rfl

theorem ptCell_2 (c : ℚ) (pts : List Vec3) (Nx Ny Nz : ℕ) (p : Vec3) :
    (ptCell c pts Nx Ny Nz p).2.1 =
      (binIdx Ny (searchMin c pts).y (searchMax c pts).y p.y).toNat := rfl

theorem ptCell_3 (c : ℚ) (pts : List Vec3) (Nx Ny Nz : ℕ) (p : Vec3) :
    (ptCell c pts Nx Ny Nz p).2.2 =
      (binIdx Nz (searchMin c pts).z (searchMax c pts).z p.z).toNat := rfl

/-!
The main C1 theorem.  The claim of the spec quantifies over arbitrary cell
counts; as shown by `C1_counterexample` below that is too strong, and the
amended statement adds the sizing invariant actually established by
`set_grid_size` for each axis: either the axis has a single cell, or the cell
width `(max-min)/N` is at least the cutoff.
-/

set_option maxHeartbeats 1600000 in
/-- C1 (amended): for every non-periodic self search over one point set with
positive cutoff `c`, whenever the cell counts satisfy the `set_grid_size`
invariant (per axis: one cell, or cell width at least `c`), the grid search
produces, as a set of unordered pairs, exactly the brute-force set of pairs at
squared distance at most `c²`. -/
theorem C1_grid_self_search_eq_bruteforce
    (pts : List Vec3) (c : ℚ) (Nx Ny Nz : ℕ)
    (hc : 0 < c) (hNx : 1 ≤ Nx) (hNy : 1 ≤ Ny) (hNz : 1 ≤ Nz)
    (hsx : Nx = 1 ∨ c * Nx ≤ (searchMax c pts).x - (searchMin c pts).x)
    (hsy : Ny = 1 ∨ c * Ny ≤ (searchMax c pts).y - (searchMin c pts).y)
    (hsz : Nz = 1 ∨ c * Nz ≤ (searchMax c pts).z - (searchMin c pts).z) :
    pairFinset (gridSelfSearchNP c pts Nx Ny Nz) = brutePairs c pts := by
  apply Finset.ext
  intro q
  rw [mem_pairFinset]
  constructor
  · rintro ⟨p, hp, rfl⟩
    rw [gridSelfSearchNP_eq] at hp
    obtain ⟨ca, _, hcase⟩ := doSearchGo_sound hp
    obtain ⟨a, b⟩ := p
    rcases hcase with hcent | ⟨cb, hcbn, hside⟩
    · obtain ⟨h1, h2, h3, h4⟩ :=
        centralPairs_sound (gridCell_pairwise pts (searchMin c pts) (searchMax c pts) Nx Ny Nz ca)
          hcent
      rw [mem_gridCell] at h1 h2
      rw [(normPair_lt h3).1, mem_brutePairs]
      exact ⟨h1.1, h2.1, h3, h4⟩
    · rw [mem_sidePairs] at hside
      obtain ⟨ha, hb, hd⟩ := hside
      rw [mem_gridCell] at ha hb
      have hne : cb ≠ ca := (mem_nlistNP.1 hcbn).2.2.2.2.2.2
      have hab : a ≠ b := by
        intro h
        apply hne
        rw [h] at ha
        rw [ha.2] at hb
        exact (Option.some.injEq _ _ ▸ hb.2 : ca = cb).symm
      rcases Nat.lt_or_ge a b with hlt | hge
      · rw [(normPair_lt hlt).1, mem_brutePairs]
        exact ⟨ha.1, hb.1, hlt, hd⟩
      · have hlt : b < a := by omega
        rw [(normPair_lt hlt).2, mem_brutePairs]
        exact ⟨hb.1, ha.1, hlt, by rwa [dist2_comm]⟩
  · intro hq
    obtain ⟨i, j⟩ := q
    rw [mem_brutePairs] at hq
    obtain ⟨hi, hj, hij, hd⟩ := hq
    obtain ⟨hx1, hx2, hy1, hy2, hz1, hz2⟩ := searchBox_strict (getD_mem hi) hc
    obtain ⟨gx1, gx2, gy1, gy2, gz1, gz2⟩ := searchBox_strict (getD_mem hj) hc
    obtain ⟨bix0, bix1⟩ := binIdx_bounds hNx hx1 hx2
    obtain ⟨biy0, biy1⟩ := binIdx_bounds hNy hy1 hy2
    obtain ⟨biz0, biz1⟩ := binIdx_bounds hNz hz1 hz2
    obtain ⟨bjx0, bjx1⟩ := binIdx_bounds hNx gx1 gx2
    obtain ⟨bjy0, bjy1⟩ := binIdx_bounds hNy gy1 gy2
    obtain ⟨bjz0, bjz1⟩ := binIdx_bounds hNz gz1 gz2
    have hci : cellOf (searchMin c pts) (searchMax c pts) Nx Ny Nz (pts.getD i ⟨0, 0, 0⟩) =
        some (ptCell c pts Nx Ny Nz (pts.getD i ⟨0, 0, 0⟩)) :=
      cellOf_total hNx hNy hNz hx1 hx2 hy1 hy2 hz1 hz2
    have hcj : cellOf (searchMin c pts) (searchMax c pts) Nx Ny Nz (pts.getD j ⟨0, 0, 0⟩) =
        some (ptCell c pts Nx Ny Nz (pts.getD j ⟨0, 0, 0⟩)) :=
      cellOf_total hNx hNy hNz gx1 gx2 gy1 gy2 gz1 gz2
    have hiC : i ∈ gridCell pts (searchMin c pts) (searchMax c pts) Nx Ny Nz
        (ptCell c pts Nx Ny Nz (pts.getD i ⟨0, 0, 0⟩)) := mem_gridCell.2 ⟨hi, hci⟩
    have hjC : j ∈ gridCell pts (searchMin c pts) (searchMax c pts) Nx Ny Nz
        (ptCell c pts Nx Ny Nz (pts.getD j ⟨0, 0, 0⟩)) := mem_gridCell.2 ⟨hj, hcj⟩
    have hciL : ptCell c pts Nx Ny Nz (pts.getD i ⟨0, 0, 0⟩) ∈ lexCells Nx Ny Nz := by
      rw [mem_lexCells, ptCell_1, ptCell_2, ptCell_3]
      refine ⟨by omega, by omega, by omega⟩
    have hcjL : ptCell c pts Nx Ny Nz (pts.getD j ⟨0, 0, 0⟩) ∈ lexCells Nx Ny Nz := by
      rw [mem_lexCells, ptCell_1, ptCell_2, ptCell_3]
      refine ⟨by omega, by omega, by omega⟩
    obtain ⟨habx, haby, habz⟩ := abs_comp_le_of_dist2_le hc.le hd
    have hNxq : (0 : ℚ) ≤ (Nx : ℚ) := by positivity
    have hNyq : (0 : ℚ) ≤ (Ny : ℚ) := by positivity
    have hNzq : (0 : ℚ) ≤ (Nz : ℚ) := by positivity
    have hadjx : Nx = 1 ∨
        (binIdx Nx (searchMin c pts).x (searchMax c pts).x (pts.getD i ⟨0, 0, 0⟩).x ≤
          binIdx Nx (searchMin c pts).x (searchMax c pts).x (pts.getD j ⟨0, 0, 0⟩).x + 1 ∧
         binIdx Nx (searchMin c pts).x (searchMax c pts).x (pts.getD j ⟨0, 0, 0⟩).x ≤
          binIdx Nx (searchMin c pts).x (searchMax c pts).x (pts.getD i ⟨0, 0, 0⟩).x + 1) := by
      rcases hsx with h1 | h1
      · exact Or.inl h1
      · have hw : 0 < (searchMax c pts).x - (searchMin c pts).x := by nlinarith
        have h2 : (Nx : ℚ) * |(pts.getD i ⟨0, 0, 0⟩).x - (pts.getD j ⟨0, 0, 0⟩).x| ≤
            (searchMax c pts).x - (searchMin c pts).x := by
          calc (Nx : ℚ) * |(pts.getD i ⟨0, 0, 0⟩).x - (pts.getD j ⟨0, 0, 0⟩).x|
              ≤ (Nx : ℚ) * c := mul_le_mul_of_nonneg_left habx hNxq
            _ = c * Nx := mul_comm _ _
            _ ≤ _ := h1
        have h3 : (Nx : ℚ) * |(pts.getD j ⟨0, 0, 0⟩).x - (pts.getD i ⟨0, 0, 0⟩).x| ≤
            (searchMax c pts).x - (searchMin c pts).x := by rwa [abs_sub_comm] at h2
        exact Or.inr ⟨binIdx_adjacent hw h2, binIdx_adjacent hw h3⟩
    have hadjy : Ny = 1 ∨
        (binIdx Ny (searchMin c pts).y (searchMax c pts).y (pts.getD i ⟨0, 0, 0⟩).y ≤
          binIdx Ny (searchMin c pts).y (searchMax c pts).y (pts.getD j ⟨0, 0, 0⟩).y + 1 ∧
         binIdx Ny (searchMin c pts).y (searchMax c pts).y (pts.getD j ⟨0, 0, 0⟩).y ≤
          binIdx Ny (searchMin c pts).y (searchMax c pts).y (pts.getD i ⟨0, 0, 0⟩).y + 1) := by
      rcases hsy with h1 | h1
      · exact Or.inl h1
      · have hw : 0 < (searchMax c pts).y - (searchMin c pts).y := by nlinarith
        have h2 : (Ny : ℚ) * |(pts.getD i ⟨0, 0, 0⟩).y - (pts.getD j ⟨0, 0, 0⟩).y| ≤
            (searchMax c pts).y - (searchMin c pts).y := by
          calc (Ny : ℚ) * |(pts.getD i ⟨0, 0, 0⟩).y - (pts.getD j ⟨0, 0, 0⟩).y|
              ≤ (Ny : ℚ) * c := mul_le_mul_of_nonneg_left haby hNyq
            _ = c * Ny := mul_comm _ _
            _ ≤ _ := h1
        have h3 : (Ny : ℚ) * |(pts.getD j ⟨0, 0, 0⟩).y - (pts.getD i ⟨0, 0, 0⟩).y| ≤
            (searchMax c pts).y - (searchMin c pts).y := by rwa [abs_sub_comm] at h2
        exact Or.inr ⟨binIdx_adjacent hw h2, binIdx_adjacent hw h3⟩
    have hadjz : Nz = 1 ∨
        (binIdx Nz (searchMin c pts).z (searchMax c pts).z (pts.getD i ⟨0, 0, 0⟩).z ≤
          binIdx Nz (searchMin c pts).z (searchMax c pts).z (pts.getD j ⟨0, 0, 0⟩).z + 1 ∧
         binIdx Nz (searchMin c pts).z (searchMax c pts).z (pts.getD j ⟨0, 0, 0⟩).z ≤
          binIdx Nz (searchMin c pts).z (searchMax c pts).z (pts.getD i ⟨0, 0, 0⟩).z + 1) := by
      rcases hsz with h1 | h1
      · exact Or.inl h1
      · have hw : 0 < (searchMax c pts).z - (searchMin c pts).z := by nlinarith
        have h2 : (Nz : ℚ) * |(pts.getD i ⟨0, 0, 0⟩).z - (pts.getD j ⟨0, 0, 0⟩).z| ≤
            (searchMax c pts).z - (searchMin c pts).z := by
          calc (Nz : ℚ) * |(pts.getD i ⟨0, 0, 0⟩).z - (pts.getD j ⟨0, 0, 0⟩).z|
              ≤ (Nz : ℚ) * c := mul_le_mul_of_nonneg_left habz hNzq
            _ = c * Nz := mul_comm _ _
            _ ≤ _ := h1
        have h3 : (Nz : ℚ) * |(pts.getD j ⟨0, 0, 0⟩).z - (pts.getD i ⟨0, 0, 0⟩).z| ≤
            (searchMax c pts).z - (searchMin c pts).z := by rwa [abs_sub_comm] at h2
        exact Or.inr ⟨binIdx_adjacent hw h2, binIdx_adjacent hw h3⟩
    by_cases hcc : ptCell c pts Nx Ny Nz (pts.getD i ⟨0, 0, 0⟩) =
        ptCell c pts Nx Ny Nz (pts.getD j ⟨0, 0, 0⟩)
    · have hcent := centralPairs_complete
        (gridCell_pairwise pts (searchMin c pts) (searchMax c pts) Nx Ny Nz
          (ptCell c pts Nx Ny Nz (pts.getD i ⟨0, 0, 0⟩)))
        hiC (hcc ▸ hjC) hij hd
      refine ⟨(i, j), ?_, (normPair_lt hij).1⟩
      rw [gridSelfSearchNP_eq]
      exact doSearchGo_central_mem hciL hcent
    · simp only [ne_eq, Prod.ext_iff, ptCell_1, ptCell_2, ptCell_3] at hcc
      have hnb : ptCell c pts Nx Ny Nz (pts.getD j ⟨0, 0, 0⟩) ∈
          nlistNP Nx Ny Nz (ptCell c pts Nx Ny Nz (pts.getD i ⟨0, 0, 0⟩)) := by
        rw [mem_nlistNP, ptCell_1, ptCell_1, ptCell_2, ptCell_2, ptCell_3, ptCell_3]
        refine ⟨by omega, by omega, by omega, by omega, by omega, by omega, ?_⟩
        simp only [ne_eq, Prod.ext_iff, ptCell_1, ptCell_2, ptCell_3]
        omega
      have hnb' : ptCell c pts Nx Ny Nz (pts.getD i ⟨0, 0, 0⟩) ∈
          nlistNP Nx Ny Nz (ptCell c pts Nx Ny Nz (pts.getD j ⟨0, 0, 0⟩)) := by
        rw [mem_nlistNP, ptCell_1, ptCell_1, ptCell_2, ptCell_2, ptCell_3, ptCell_3]
        refine ⟨by omega, by omega, by omega, by omega, by omega, by omega, ?_⟩
        simp only [ne_eq, Prod.ext_iff, ptCell_1, ptCell_2, ptCell_3]
        omega
      rcases doSearchGo_side_mem (lexCells Nx Ny Nz) [] (lexCells_nodup Nx Ny Nz) (by simp)
        hciL hcjL hnb hnb' hiC hjC hd with h | h
      · refine ⟨(i, j), ?_, (normPair_lt hij).1⟩
        rw [gridSelfSearchNP_eq]
        exact h
      · refine ⟨(j, i), ?_, (normPair_lt hij).2⟩
        rw [gridSelfSearchNP_eq]
        exact h

/-- C1 witness: two points at distance `2`, cutoff `3`, cell counts `(2,1,1)`
satisfying the sizing invariant; the grid search result is exactly the
brute-force pair set. -/
theorem C1_grid_self_search_witness :
    (0 : ℚ) < 3 ∧
      pairFinset (gridSelfSearchNP 3 [⟨0, 0, 0⟩, ⟨2, 0, 0⟩] 2 1 1) =
        brutePairs 3 [⟨0, 0, 0⟩, ⟨2, 0, 0⟩] :=
  ⟨by norm_num,
    C1_grid_self_search_eq_bruteforce [⟨0, 0, 0⟩, ⟨2, 0, 0⟩] 3 2 1 1 (by norm_num)
      (by norm_num) (by norm_num) (by norm_num)
      (Or.inr (by norm_num [searchMax, searchMin, haloBox, minmaxPts, vmin, vmax,
        qadd_eq, qsub_eq]))
      (Or.inl rfl) (Or.inl rfl)⟩

/-- C1 counterexample: the claim as frozen quantifies over *arbitrary* cell
counts `Nx,Ny,Nz`.  With the same two points at distance `2 ≤ 3` and the
over-fine choice `Nx = 8` (cell width `1 < cutoff`), the points land in the
non-adjacent cells `x = 3` and `x = 5`, so the grid search misses the pair that
brute force finds: the two sets differ. -/
theorem C1_counterexample :
    pairFinset (gridSelfSearchNP 3 [⟨0, 0, 0⟩, ⟨2, 0, 0⟩] 8 1 1) ≠
      brutePairs 3 [⟨0, 0, 0⟩, ⟨2, 0, 0⟩] := by decide

/-! ## The "within distance of a target set" search

Embedding of the `Grid_searcher` within-of-set constructor
(`grid_search.cpp` lines 485–632) with its serial sweep
(`do_part_within_fast` over the full cell range and
`search_in_pair_of_cells`).  The parallel path partitions the same sweep over
workers; the `used` flags it computes are the same set (marking is monotone
and each (cell, neighbour-cell) pair is scanned by exactly one worker), so the
serial embedding represents every thread count for the value-level claims.

The periodic box is an external collaborator (`Periodic_box` is not part of
the repository sources); it enters as the abstract interface `PBox` exposing
exactly what the search uses: the periodicity and triclinicity predicates, the
box extents, the lab-to-box transform, and the minimum-image squared distance.
`set_grid_size` (a floating-point cube-root computation) enters as an oracle
argument `gs`; theorems that need the sizing invariant state it as a
hypothesis about `gs`'s output, which is what the source establishes. -/

/-- The abstract periodic-box interface consumed by the search (spec §3: "box
basis vectors + a predicate for is-periodic and is-triclinic, plus lab-box
transforms and a periodic-aware distance function"). -/
structure PBox where
  isPeriodic : Bool
  isTriclinic : Bool
  extents : Vec3
  labToBox : Vec3 → Vec3
  dist2PBC : Vec3 → Vec3 → ℚ

/-- `overlap_1d`: intersection of two 1-d intervals, `(0,0)` when disjoint. -/
def overlap1d (a1 a2 b1 b2 : ℚ) : ℚ × ℚ :=
  if a1 < b1 then
    (if a2 < b1 then (0, 0) else (b1, if a2 < b2 then a2 else b2))
  else
    (if b2 < a1 then (0, 0) else (a1, if b2 < a2 then b2 else a2))

/-- The coordinates of the points of a selection: `sel.XYZ(i)` for local index
`i`, where `sel.index` is the list of absolute indices. -/
def selCoord (coords : List Vec3) (idx : List ℕ) (i : ℕ) : Vec3 :=
  coords.getD (idx.getD i 0) ⟨0, 0, 0⟩

/-- The points of a selection as a list (for `minmax`). -/
def selPts (coords : List Vec3) (idx : List ℕ) : List Vec3 :=
  idx.map fun a => coords.getD a ⟨0, 0, 0⟩

/-- The overlap bounding box of the two halo-padded selection boxes
(the non-periodic grid-creation part of the within-of-set constructor). -/
def withinBox (c : ℚ) (s t : List Vec3) : Vec3 × Vec3 :=
  let b1 := haloBox c (minmaxPts s)
  let b2 := haloBox c (minmaxPts t)
  let ox := overlap1d b1.1.x b1.2.x b2.1.x b2.2.x
  let oy := overlap1d b1.1.y b1.2.y b2.1.y b2.2.y
  let oz := overlap1d b1.1.z b1.2.z b2.1.z b2.2.z
  (⟨ox.1, oy.1, oz.1⟩, ⟨ox.2, oy.2, oz.2⟩)

/-- The "no overlap on some axis" early-exit condition (`max(i)==min(i)`). -/
def withinBoxFail (c : ℚ) (s t : List Vec3) : Bool :=
  let b := withinBox c s t
  b.1.x = b.2.x ∨ b.1.y = b.2.y ∨ b.1.z = b.2.z

/-- The wrap-around `while` loops of the periodic `populate_coor_grid`
normalise a cell coordinate into `[0,N)`; their net effect on `n` is the
mathematical modulus (for `N ≥ 1`). -/
def wrapMod (n : ℤ) (N : ℕ) : ℕ := (n.emod N).toNat

/-- Periodic cell assignment of `populate_coor_grid` (triclinic coordinates
are first transformed into the box basis; indices wrap). -/
def cellOfPer (box : PBox) (mn mx : Vec3) (Nx Ny Nz : ℕ) (p : Vec3) : Cell :=
  let q := if box.isTriclinic then box.labToBox p else p
  (wrapMod (binIdx Nx mn.x mx.x q.x) Nx,
   wrapMod (binIdx Ny mn.y mx.y q.y) Ny,
   wrapMod (binIdx Nz mn.z mx.z q.z) Nz)

/-- Cell assignment used by the within search: discard out-of-range points in
the non-periodic case, wrap in the periodic case. -/
def withinAssign (periodic : Bool) (box : PBox) (mn mx : Vec3) (Nx Ny Nz : ℕ)
    (p : Vec3) : Option Cell :=
  if periodic then some (cellOfPer box mn mx Nx Ny Nz p)
  else cellOf mn mx Nx Ny Nz p

/-- One cell of a coordinate grid (`populate_coor_grid`): the ascending list
of the local indices of the selection binned to that cell. -/
def coorGridCell (assign : Vec3 → Option Cell) (coordOf : ℕ → Vec3) (n : ℕ)
    (cl : Cell) : List ℕ :=
  (List.range n).filter fun i => assign (coordOf i) = some cl

/-- Periodic neighbour list (`get_nlist_local`, periodic branch): offsets
`-1..1` per axis, restricted when the axis has fewer than 3 cells (only one
neighbour for 2 cells, none for 1), wrapped at the grid edges, central cell
excluded — in the loop order of the source. -/
def nlistPer (Nx Ny Nz : ℕ) (c : Cell) : List Cell :=
  let wrap : ℤ → ℕ → ℤ := fun v N => if v = (N : ℤ) then 0 else if v = -1 then (N : ℤ) - 1 else v
  let ds : ℕ → List ℤ := fun N =>
    (if 1 < N then [(-1 : ℤ)] else []) ++ [0] ++ (if 2 < N then [(1 : ℤ)] else [])
  (ds Nx).flatMap fun d1 =>
    (ds Ny).flatMap fun d2 =>
      (ds Nz).filterMap fun d3 =>
        let n1 := wrap ((c.1 : ℤ) + d1) Nx
        let n2 := wrap ((c.2.1 : ℤ) + d2) Ny
        let n3 := wrap ((c.2.2 : ℤ) + d3) Nz
        if n1.toNat = c.1 ∧ n2.toNat = c.2.1 ∧ n3.toNat = c.2.2 then none
        else some (n1.toNat, n2.toNat, n3.toNat)

/-- `search_in_pair_of_cells`: scan the source points of one cell against the
target points of another; every not-yet-used source point that has a target
point within the cutoff (squared comparison, inclusive `<=`) is marked used. -/
def searchPairCells (d2f : Vec3 → Vec3 → ℚ) (c2 : ℚ) (coordS coordT : ℕ → Vec3)
    (srcL tgtL : List ℕ) (used : Finset ℕ) : Finset ℕ :=
  srcL.foldl
    (fun u s =>
      if s ∈ u then u
      else if tgtL.any (fun t => d2f (coordT t) (coordS s) ≤ c2) then insert s u else u)
    used

/-- The serial cell sweep of `do_part_within_fast`: for every cell, search the
source cell against the target centre cell and against every target neighbour
cell. -/
def withinSweep (d2f : Vec3 → Vec3 → ℚ) (c2 : ℚ) (coordS coordT : ℕ → Vec3)
    (srcCell tgtCell : Cell → List ℕ) (nl : Cell → List Cell)
    (cells : List Cell) : Finset ℕ :=
  cells.foldl
    (fun u c =>
      (c :: nl c).foldl (fun u' tc => searchPairCells d2f c2 coordS coordT (srcCell c) (tgtCell tc) u') u)
    ∅

/-- The bounding box the within search grids are built over: the unit cell
for a periodic search, the overlap of the halo-padded selection boxes
otherwise. -/
def withinBB (box : PBox) (c : ℚ) (coords : List Vec3) (srcIdx tgtIdx : List ℕ)
    (periodic : Bool) : Vec3 × Vec3 :=
  if periodic then (⟨0, 0, 0⟩, box.extents)
  else withinBox c (selPts coords srcIdx) (selPts coords tgtIdx)

/-- The grid dimensions of the within search (`set_grid_size` through the
oracle `gs`, called on the box and `max(src.size(), target.size())`). -/
def withinDims (gs : Vec3 → Vec3 → ℕ → ℕ × ℕ × ℕ) (box : PBox) (c : ℚ)
    (coords : List Vec3) (srcIdx tgtIdx : List ℕ) (periodic : Bool) : ℕ × ℕ × ℕ :=
  gs (withinBB box c coords srcIdx tgtIdx periodic).1
    (withinBB box c coords srcIdx tgtIdx periodic).2 (max srcIdx.length tgtIdx.length)

/-- The squared-distance function of the within search: plain Euclidean when
non-periodic, the box's minimum-image distance otherwise. -/
def withinD2f (box : PBox) (periodic : Bool) : Vec3 → Vec3 → ℚ :=
  fun a b => if periodic then box.dist2PBC a b else dist2 a b

/-- The neighbour list of the within search. -/
def withinNl (Nx Ny Nz : ℕ) (periodic : Bool) : Cell → List Cell :=
  fun cl => if periodic then nlistPer Nx Ny Nz cl else nlistNP Nx Ny Nz cl

/-- The `used` flag set the within sweep computes: the local source indices
found within the cutoff of some target point. -/
def withinUsedSet (gs : Vec3 → Vec3 → ℕ → ℕ × ℕ × ℕ) (box : PBox) (c : ℚ)
    (coords : List Vec3) (srcIdx tgtIdx : List ℕ) (periodic : Bool) : Finset ℕ :=
  withinSweep (withinD2f box periodic) (qmul c c)
    (selCoord coords srcIdx) (selCoord coords tgtIdx)
    (coorGridCell
      (withinAssign periodic box (withinBB box c coords srcIdx tgtIdx periodic).1
        (withinBB box c coords srcIdx tgtIdx periodic).2
        (withinDims gs box c coords srcIdx tgtIdx periodic).1
        (withinDims gs box c coords srcIdx tgtIdx periodic).2.1
        (withinDims gs box c coords srcIdx tgtIdx periodic).2.2)
      (selCoord coords srcIdx) srcIdx.length)
    (coorGridCell
      (withinAssign periodic box (withinBB box c coords srcIdx tgtIdx periodic).1
        (withinBB box c coords srcIdx tgtIdx periodic).2
        (withinDims gs box c coords srcIdx tgtIdx periodic).1
        (withinDims gs box c coords srcIdx tgtIdx periodic).2.1
        (withinDims gs box c coords srcIdx tgtIdx periodic).2.2)
      (selCoord coords tgtIdx) tgtIdx.length)
    (withinNl (withinDims gs box c coords srcIdx tgtIdx periodic).1
      (withinDims gs box c coords srcIdx tgtIdx periodic).2.1
      (withinDims gs box c coords srcIdx tgtIdx periodic).2.2 periodic)
    (lexCells (withinDims gs box c coords srcIdx tgtIdx periodic).1
      (withinDims gs box c coords srcIdx tgtIdx periodic).2.1
      (withinDims gs box c coords srcIdx tgtIdx periodic).2.2)

/-- The `Grid_searcher` within-of-set constructor (the one the query
evaluator's `within` keyword calls): which source points lie within `c` of
some target point.  Returns the (absolute or local) indices, sorted; with
`includeSelf` the target indices are added and duplicates removed, without it
the target indices are subtracted.  The constructor contains no `throw` on any
path, so the embedding is a total function. -/
def gridSearcherWithin (gs : Vec3 → Vec3 → ℕ → ℕ × ℕ × ℕ) (box : PBox) (c : ℚ)
    (coords : List Vec3) (srcIdx tgtIdx : List ℕ)
    (includeSelf absIndex periodic : Bool) : List ℕ :=
  if ¬periodic ∧ withinBoxFail c (selPts coords srcIdx) (selPts coords tgtIdx) then []
  else
    let bon2 := cppSort
      ((((List.range srcIdx.length).filter
          (fun i => i ∈ withinUsedSet gs box c coords srcIdx tgtIdx periodic)).map
        (fun i => if absIndex then srcIdx.getD i 0 else i)) ++
        (if includeSelf then tgtIdx else []))
    if includeSelf then cppUnique bon2 else setDifferenceCpp bon2 tgtIdx

theorem searchPairCells_subset (d2f : Vec3 → Vec3 → ℚ) (c2 : ℚ) (cS cT : ℕ → Vec3)
    (tgtL : List ℕ) :
    ∀ (srcL : List ℕ) (u : Finset ℕ), u ⊆ searchPairCells d2f c2 cS cT srcL tgtL u
  | [], u => by
    rw [searchPairCells, List.foldl_nil]
  | a :: rest, u => by
    rw [searchPairCells, List.foldl_cons]
    refine subset_trans ?_ (searchPairCells_subset d2f c2 cS cT tgtL rest _)
    dsimp only
    split
    · exact subset_refl _
    · split
      · exact Finset.subset_insert _ _
      · exact subset_refl _

theorem searchPairCells_marks (d2f : Vec3 → Vec3 → ℚ) (c2 : ℚ) (cS cT : ℕ → Vec3)
    (tgtL : List ℕ) {s t : ℕ} (ht : t ∈ tgtL) (hd : d2f (cT t) (cS s) ≤ c2) :
    ∀ (srcL : List ℕ) (u : Finset ℕ), s ∈ srcL →
      s ∈ searchPairCells d2f c2 cS cT srcL tgtL u
  | [], u, hs => by simp at hs
  | a :: rest, u, hs => by
    rw [searchPairCells, List.foldl_cons]
    rcases List.mem_cons.1 hs with hsa | hsr
    · subst hsa
      refine Finset.mem_of_subset (searchPairCells_subset d2f c2 cS cT tgtL rest _) ?_
      dsimp only
      split
      · assumption
      · rw [if_pos]
        · exact Finset.mem_insert_self _ _
        · rw [List.any_eq_true]
          exact ⟨t, ht, by simpa using hd⟩
    · exact searchPairCells_marks d2f c2 cS cT tgtL ht hd rest _ hsr

theorem foldl_searchPair_subset (d2f : Vec3 → Vec3 → ℚ) (c2 : ℚ) (cS cT : ℕ → Vec3)
    (srcL : List ℕ) (tgtCell : Cell → List ℕ) :
    ∀ (tcs : List Cell) (u : Finset ℕ),
      u ⊆ tcs.foldl (fun u' tc => searchPairCells d2f c2 cS cT srcL (tgtCell tc) u') u
  | [], u => by rw [List.foldl_nil]
  | tc :: rest, u => by
    rw [List.foldl_cons]
    exact subset_trans (searchPairCells_subset d2f c2 cS cT (tgtCell tc) srcL u)
      (foldl_searchPair_subset d2f c2 cS cT srcL tgtCell rest _)

theorem foldl_searchPair_marks (d2f : Vec3 → Vec3 → ℚ) (c2 : ℚ) (cS cT : ℕ → Vec3)
    (srcL : List ℕ) (tgtCell : Cell → List ℕ) {s t : ℕ} {tc0 : Cell}
    (hs : s ∈ srcL) (ht : t ∈ tgtCell tc0) (hd : d2f (cT t) (cS s) ≤ c2) :
    ∀ (tcs : List Cell) (u : Finset ℕ), tc0 ∈ tcs →
      s ∈ tcs.foldl (fun u' tc => searchPairCells d2f c2 cS cT srcL (tgtCell tc) u') u
  | [], u, htc => by simp at htc
  | tc :: rest, u, htc => by
    rw [List.foldl_cons]
    rcases List.mem_cons.1 htc with h | h
    · subst h
      exact Finset.mem_of_subset (foldl_searchPair_subset d2f c2 cS cT srcL tgtCell rest _)
        (searchPairCells_marks d2f c2 cS cT (tgtCell tc0) ht hd srcL u hs)
    · exact foldl_searchPair_marks d2f c2 cS cT srcL tgtCell hs ht hd rest _ h

theorem withinSweep_subset (d2f : Vec3 → Vec3 → ℚ) (c2 : ℚ) (cS cT : ℕ → Vec3)
    (srcCell tgtCell : Cell → List ℕ) (nl : Cell → List Cell) :
    ∀ (cells : List Cell) (u : Finset ℕ),
      u ⊆ cells.foldl
        (fun u c => (c :: nl c).foldl
          (fun u' tc => searchPairCells d2f c2 cS cT (srcCell c) (tgtCell tc) u') u) u
  | [], u => by rw [List.foldl_nil]
  | c :: rest, u => by
    rw [List.foldl_cons]
    exact subset_trans (foldl_searchPair_subset d2f c2 cS cT (srcCell c) tgtCell (c :: nl c) u)
      (withinSweep_subset d2f c2 cS cT srcCell tgtCell nl rest _)

theorem withinSweepFold_marks (d2f : Vec3 → Vec3 → ℚ) (c2 : ℚ) (cS cT : ℕ → Vec3)
    (srcCell tgtCell : Cell → List ℕ) (nl : Cell → List Cell) {cs tc0 : Cell} {s t : ℕ}
    (htc : tc0 ∈ cs :: nl cs) (hs : s ∈ srcCell cs) (ht : t ∈ tgtCell tc0)
    (hd : d2f (cT t) (cS s) ≤ c2) :
    ∀ (cells : List Cell) (u : Finset ℕ), cs ∈ cells →
      s ∈ cells.foldl
        (fun u c => (c :: nl c).foldl
          (fun u2 tc => searchPairCells d2f c2 cS cT (srcCell c) (tgtCell tc) u2) u) u
  | [], u, hcs => by simp at hcs
  | c :: rest, u, hcs => by
    rw [List.foldl_cons]
    rcases List.mem_cons.1 hcs with h | h
    · subst h
      exact Finset.mem_of_subset (withinSweep_subset d2f c2 cS cT srcCell tgtCell nl rest _)
        (foldl_searchPair_marks d2f c2 cS cT (srcCell cs) tgtCell hs ht hd (cs :: nl cs) _ htc)
    · exact withinSweepFold_marks d2f c2 cS cT srcCell tgtCell nl htc hs ht hd rest _ h

theorem withinSweep_marks (d2f : Vec3 → Vec3 → ℚ) (c2 : ℚ) (cS cT : ℕ → Vec3)
    (srcCell tgtCell : Cell → List ℕ) (nl : Cell → List Cell) {cs tc0 : Cell} {s t : ℕ}
    (htc : tc0 ∈ cs :: nl cs) (hs : s ∈ srcCell cs) (ht : t ∈ tgtCell tc0)
    (hd : d2f (cT t) (cS s) ≤ c2) {cells : List Cell} (hcs : cs ∈ cells) :
    s ∈ withinSweep d2f c2 cS cT srcCell tgtCell nl cells := by
  rw [withinSweep]
  exact withinSweepFold_marks d2f c2 cS cT srcCell tgtCell nl htc hs ht hd cells ∅ hcs

theorem mem_coorGridCell {assign : Vec3 → Option Cell} {coordOf : ℕ → Vec3} {n : ℕ}
    {cl : Cell} {i : ℕ} :
    i ∈ coorGridCell assign coordOf n cl ↔ i < n ∧ assign (coordOf i) = some cl := by
  simp [coorGridCell]

theorem cellOf_inv {mn mx : Vec3} {Nx Ny Nz : ℕ} {p : Vec3} {cl : Cell}
    (h : cellOf mn mx Nx Ny Nz p = some cl) :
    (0 ≤ binIdx Nx mn.x mx.x p.x ∧ binIdx Nx mn.x mx.x p.x < (Nx : ℤ)) ∧
    (0 ≤ binIdx Ny mn.y mx.y p.y ∧ binIdx Ny mn.y mx.y p.y < (Ny : ℤ)) ∧
    (0 ≤ binIdx Nz mn.z mx.z p.z ∧ binIdx Nz mn.z mx.z p.z < (Nz : ℤ)) ∧
    cl = ((binIdx Nx mn.x mx.x p.x).toNat, (binIdx Ny mn.y mx.y p.y).toNat,
      (binIdx Nz mn.z mx.z p.z).toNat) := by
  rw [cellOf] at h
  split_ifs at h with h1 h2 h3
  · exact ⟨h1, h2, h3, (Option.some.inj h).symm⟩

/-!
Claim C7.  The distance comparison of the within search is inclusive
(`d <= cutoff2` in `search_in_pair_of_cells`), so a candidate at distance
exactly `d` is reported — *provided* the candidate is binned into the search
grid.  `C7_counterexample` (further below, at the evaluator level) shows that
the binning proviso is real: a candidate lying exactly on the upper boundary
of the halo-padded overlap box is discarded by `populate_coor_grid` and
silently dropped, so the claim as frozen is false.
-/

/-- C7 (amended): in a non-periodic within-of-set search whose grid dimensions
satisfy the `set_grid_size` sizing invariant, every binned candidate at
distance *at most* (so in particular *exactly*) the cutoff from some binned
target point appears in the result — the boundary is inclusive. -/
theorem C7_within_inclusive_bound
    (gs : Vec3 → Vec3 → ℕ → ℕ × ℕ × ℕ) (box : PBox) (c : ℚ) (coords : List Vec3)
    (srcIdx tgtIdx : List ℕ) (s t : ℕ) (cs ct : Cell) (mn mx : Vec3) (Nx Ny Nz : ℕ)
    (hc : 0 < c)
    (hfail : withinBoxFail c (selPts coords srcIdx) (selPts coords tgtIdx) = false)
    (hB : withinBB box c coords srcIdx tgtIdx false = (mn, mx))
    (hD : withinDims gs box c coords srcIdx tgtIdx false = (Nx, Ny, Nz))
    (hs : s < srcIdx.length) (ht : t < tgtIdx.length)
    (hsx : Nx = 1 ∨ c * Nx ≤ mx.x - mn.x)
    (hsy : Ny = 1 ∨ c * Ny ≤ mx.y - mn.y)
    (hsz : Nz = 1 ∨ c * Nz ≤ mx.z - mn.z)
    (hcs : cellOf mn mx Nx Ny Nz (selCoord coords srcIdx s) = some cs)
    (hct : cellOf mn mx Nx Ny Nz (selCoord coords tgtIdx t) = some ct)
    (hd : dist2 (selCoord coords tgtIdx t) (selCoord coords srcIdx s) ≤ qmul c c) :
    srcIdx.getD s 0 ∈ gridSearcherWithin gs box c coords srcIdx tgtIdx true true false := by
  rw [gridSearcherWithin, if_neg (by simp [hfail])]
  rw [if_pos rfl, mem_cppUnique, mem_cppSort, List.mem_append]
  left
  rw [List.mem_map]
  refine ⟨s, ?_, by rw [if_pos rfl]⟩
  rw [List.mem_filter]
  refine ⟨List.mem_range.2 hs, ?_⟩
  rw [decide_eq_true_eq]
  rw [withinUsedSet, hB, hD]
  dsimp only
  obtain ⟨⟨six0, six1⟩, ⟨siy0, siy1⟩, ⟨siz0, siz1⟩, rfl⟩ := cellOf_inv hcs
  obtain ⟨⟨tix0, tix1⟩, ⟨tiy0, tiy1⟩, ⟨tiz0, tiz1⟩, rfl⟩ := cellOf_inv hct
  obtain ⟨habx, haby, habz⟩ := abs_comp_le_of_dist2_le hc.le hd
  have hsrcmem : s ∈ coorGridCell (withinAssign false box mn mx Nx Ny Nz)
      (selCoord coords srcIdx) srcIdx.length
      ((binIdx Nx mn.x mx.x (selCoord coords srcIdx s).x).toNat,
       (binIdx Ny mn.y mx.y (selCoord coords srcIdx s).y).toNat,
       (binIdx Nz mn.z mx.z (selCoord coords srcIdx s).z).toNat) := by
    rw [mem_coorGridCell, withinAssign, if_neg (by simp)]
    exact ⟨hs, hcs⟩
  have htgtmem : t ∈ coorGridCell (withinAssign false box mn mx Nx Ny Nz)
      (selCoord coords tgtIdx) tgtIdx.length
      ((binIdx Nx mn.x mx.x (selCoord coords tgtIdx t).x).toNat,
       (binIdx Ny mn.y mx.y (selCoord coords tgtIdx t).y).toNat,
       (binIdx Nz mn.z mx.z (selCoord coords tgtIdx t).z).toNat) := by
    rw [mem_coorGridCell, withinAssign, if_neg (by simp)]
    exact ⟨ht, hct⟩
  have hd' : withinD2f box false (selCoord coords tgtIdx t) (selCoord coords srcIdx s) ≤
      qmul c c := by
    rw [withinD2f]
    simpa using hd
  have hadj : ∀ (N : ℕ) (a b u v : ℚ), (N = 1 ∨ c * N ≤ b - a) →
      0 ≤ binIdx N a b u → binIdx N a b u < (N : ℤ) →
      0 ≤ binIdx N a b v → binIdx N a b v < (N : ℤ) → |u - v| ≤ c →
      binIdx N a b u ≤ binIdx N a b v + 1 ∧ binIdx N a b v ≤ binIdx N a b u + 1 := by
    intro N a b u v hsize h0u h1u h0v h1v hab
    rcases hsize with h1 | h1
    · subst h1
      omega
    · have hNpos : 0 < N := by omega
      have hw : 0 < b - a := by
        have hNq : (1 : ℚ) ≤ (N : ℚ) := by exact_mod_cast hNpos
        nlinarith
      have h2 : (N : ℚ) * |u - v| ≤ b - a := by
        calc (N : ℚ) * |u - v| ≤ (N : ℚ) * c :=
              mul_le_mul_of_nonneg_left hab (by positivity)
          _ = c * N := mul_comm _ _
          _ ≤ b - a := h1
      have h3 : (N : ℚ) * |v - u| ≤ b - a := by rwa [abs_sub_comm] at h2
      exact ⟨binIdx_adjacent hw h2, binIdx_adjacent hw h3⟩
  have hadjx := hadj Nx mn.x mx.x (selCoord coords tgtIdx t).x (selCoord coords srcIdx s).x
    hsx tix0 tix1 six0 six1 habx
  have hadjy := hadj Ny mn.y mx.y (selCoord coords tgtIdx t).y (selCoord coords srcIdx s).y
    hsy tiy0 tiy1 siy0 siy1 haby
  have hadjz := hadj Nz mn.z mx.z (selCoord coords tgtIdx t).z (selCoord coords srcIdx s).z
    hsz tiz0 tiz1 siz0 siz1 habz
  have htc : ((binIdx Nx mn.x mx.x (selCoord coords tgtIdx t).x).toNat,
      (binIdx Ny mn.y mx.y (selCoord coords tgtIdx t).y).toNat,
      (binIdx Nz mn.z mx.z (selCoord coords tgtIdx t).z).toNat) ∈
      ((binIdx Nx mn.x mx.x (selCoord coords srcIdx s).x).toNat,
       (binIdx Ny mn.y mx.y (selCoord coords srcIdx s).y).toNat,
       (binIdx Nz mn.z mx.z (selCoord coords srcIdx s).z).toNat) ::
        withinNl Nx Ny Nz false
          ((binIdx Nx mn.x mx.x (selCoord coords srcIdx s).x).toNat,
           (binIdx Ny mn.y mx.y (selCoord coords srcIdx s).y).toNat,
           (binIdx Nz mn.z mx.z (selCoord coords srcIdx s).z).toNat) := by
    by_cases hcc : ((binIdx Nx mn.x mx.x (selCoord coords tgtIdx t).x).toNat,
        (binIdx Ny mn.y mx.y (selCoord coords tgtIdx t).y).toNat,
        (binIdx Nz mn.z mx.z (selCoord coords tgtIdx t).z).toNat) =
        (((binIdx Nx mn.x mx.x (selCoord coords srcIdx s).x).toNat,
          (binIdx Ny mn.y mx.y (selCoord coords srcIdx s).y).toNat,
          (binIdx Nz mn.z mx.z (selCoord coords srcIdx s).z).toNat) : Cell)
    · rw [hcc]
      exact List.mem_cons_self ..
    · refine List.mem_cons_of_mem _ ?_
      rw [withinNl]
      simp only [if_neg (by simp : ¬(false = true))]
      rw [mem_nlistNP]
      simp only [ne_eq, Prod.ext_iff] at hcc ⊢
      refine ⟨?_, ?_, ?_, ?_, ?_, ?_, ?_⟩ <;> dsimp only <;> omega
  exact withinSweep_marks (withinD2f box false) (qmul c c) (selCoord coords srcIdx)
    (selCoord coords tgtIdx) _ _ (withinNl Nx Ny Nz false) htc hsrcmem htgtmem hd'
    (mem_lexCells.2 (by refine ⟨?_, ?_, ?_⟩ <;> dsimp only <;> omega))

/-- C7 counterexample: a CA atom at the origin and a candidate at distance
*exactly* `0.25` in the `+x` direction.  The candidate sits on the upper face
of the overlap box, so `floor(ratio * Nx) = Nx` and `populate_coor_grid`
discards it; the within result is `[0]` (the target only) even though the
candidate is at distance exactly the cutoff. -/
theorem C7_boundary_counterexample :
    dist2 (⟨0, 0, 0⟩ : Vec3) (⟨Rat.divInt 1 4, 0, 0⟩ : Vec3) =
        qmul (Rat.divInt 1 4) (Rat.divInt 1 4) ∧
      gridSearcherWithin (fun _ _ _ => (1, 1, 1))
        ⟨false, false, ⟨0, 0, 0⟩, id, fun _ _ => 0⟩ (Rat.divInt 1 4)
        [⟨0, 0, 0⟩, ⟨Rat.divInt 1 4, 0, 0⟩] [0, 1] [0] true true false = [0] := by
  exact ⟨by decide, by decide⟩

/-- C7 witness: a CA atom at the origin and a candidate at distance *exactly*
`0.25` (in the `-x` direction, so the candidate is strictly inside the search
box and is binned); the candidate (local index 1) is in the within result —
the bound is inclusive. -/
theorem C7_within_inclusive_witness :
    dist2 (⟨0, 0, 0⟩ : Vec3) (⟨Rat.divInt (-1) 4, 0, 0⟩ : Vec3) =
        qmul (Rat.divInt 1 4) (Rat.divInt 1 4) ∧
      (1 : ℕ) ∈ gridSearcherWithin (fun _ _ _ => (1, 1, 1))
        ⟨false, false, ⟨0, 0, 0⟩, id, fun _ _ => 0⟩ (Rat.divInt 1 4)
        [⟨0, 0, 0⟩, ⟨Rat.divInt (-1) 4, 0, 0⟩] [0, 1] [0] true true false :=
  ⟨by decide,
    C7_within_inclusive_bound (fun _ _ _ => (1, 1, 1))
      ⟨false, false, ⟨0, 0, 0⟩, id, fun _ _ => 0⟩ (Rat.divInt 1 4)
      [⟨0, 0, 0⟩, ⟨Rat.divInt (-1) 4, 0, 0⟩] [0, 1] [0] 1 0 (0, 0, 0) (0, 0, 0)
      ⟨Rat.divInt (-1) 4, Rat.divInt (-1) 4, Rat.divInt (-1) 4⟩
      ⟨Rat.divInt 1 4, Rat.divInt 1 4, Rat.divInt 1 4⟩ 1 1 1
      (by decide) (by decide) (by decide) (by decide) (by decide) (by decide)
      (Or.inl rfl) (Or.inl rfl) (Or.inl rfl) (by decide) (by decide) (by decide)⟩

/-! ### The `Distance_search_within_impl::setup` periodicity check

`setup` builds its grid bounding box from the selection minmax plus a halo in
the non-periodic case; in the periodic case it first checks
`box.is_periodic()` and throws, otherwise it grids the unit cell.  We embed
the bounding-box computation with the throw as `Except.error`.  The
within-of-set `Grid_searcher` constructor (the path used by the selection
evaluator's `within` keyword) performs **no** such check: `gridSearcherWithin`
above returns a plain list for every input, faithful to the constructor. -/

def distanceSearchWithinSetup (c : ℚ) (pts : List Vec3) (box : PBox)
    (periodic : Bool) : Except String (Vec3 × Vec3) :=
  if periodic = false then
    Except.ok (haloBox c (minmaxPts pts))
  else if box.isPeriodic = false then
    Except.error "Asked for pbc in within selection, but there is no periodic box!"
  else
    Except.ok (⟨0, 0, 0⟩, box.extents)

/-- C9 (amended): on the `Distance_search_within_impl::setup` path, a periodic
search over a non-periodic box does fail with the fatal reported error.  (The
`Grid_searcher` within-of-set constructor path performs no such check; see the
counterexample.) -/
theorem C9_setup_periodic_error (c : ℚ) (pts : List Vec3) (box : PBox)
    (h : box.isPeriodic = false) :
    distanceSearchWithinSetup c pts box true =
      Except.error "Asked for pbc in within selection, but there is no periodic box!" := by
  rw [distanceSearchWithinSetup, if_neg (by simp), if_pos h]

/-- C9 witness: a concrete non-periodic box makes `setup` throw. -/
theorem C9_setup_periodic_error_witness :
    (⟨false, false, ⟨0, 0, 0⟩, id, fun _ _ => 0⟩ : PBox).isPeriodic = false ∧
      distanceSearchWithinSetup 1 [⟨0, 0, 0⟩]
          ⟨false, false, ⟨0, 0, 0⟩, id, fun _ _ => 0⟩ true =
        Except.error "Asked for pbc in within selection, but there is no periodic box!" :=
  ⟨rfl, C9_setup_periodic_error 1 [⟨0, 0, 0⟩]
    ⟨false, false, ⟨0, 0, 0⟩, id, fun _ _ => 0⟩ rfl⟩

/-- C9 counterexample: the within-of-set `Grid_searcher` constructor — the
path the selection evaluator uses for `within ... pbc` — performs no
periodicity check.  With `periodic = true` and a box whose `isPeriodic` flag
is `false` it silently returns an ordinary result instead of failing. -/
theorem C9_grid_searcher_no_check :
    (⟨false, false, ⟨1, 1, 1⟩, id, fun a b => dist2 a b⟩ : PBox).isPeriodic = false ∧
      gridSearcherWithin (fun _ _ _ => (1, 1, 1))
        ⟨false, false, ⟨1, 1, 1⟩, id, fun a b => dist2 a b⟩ (Rat.divInt 1 4)
        [⟨Rat.divInt 1 2, Rat.divInt 1 2, Rat.divInt 1 2⟩,
         ⟨Rat.divInt 5 8, Rat.divInt 1 2, Rat.divInt 1 2⟩] [0, 1] [0] true true true =
        [0, 1] :=
  ⟨rfl, by decide⟩

/-! ## The selection evaluator (`selection_parser.cpp`)

`Selection_parser::eval_node` / `eval_numeric` / `do_optimization` / `apply`.

Modelling conventions:
* An atom carries the fields the evaluator reads (`name`, `resname`, `tag`,
  `chain`, `resid`, `resindex`, `occupancy`, `beta`); coordinates of the
  current frame are a separate list (`traj[frame].coord`).
* `std::regex_match` is an oracle of the system (`regexMatch`), as is
  `set_grid_size` for the `within` keyword (`gridSize`).
* C++ exceptions (`Pteros_error`) are `Except.error`; reads that are
  undefined behaviour in C++ (`res1[0]` on an empty vector in `TOK_NOT`,
  falling off the end of `eval_numeric` for a node code the `if` chain does
  not handle) are modelled as `Except.error` with a descriptive message.
* `child_as_str(i)[0]` on the chain keyword is `String.toList.headD`
  (C++ `std::string::operator[]` at index 0 of an empty string yields the
  null character).
* String and regex children of keyword nodes are data (`TextChild`), and
  integer-or-range children are data (`IntChild`), exactly as in the
  `boost::variant` children of `AstNode`. -/

structure Atom where
  name : String
  resname : String
  tag : String
  chain : Char
  resid : ℤ
  resindex : ℤ
  occupancy : ℚ
  beta : ℚ
deriving DecidableEq

/-- Default-constructed atom (reads past the end of `sys->atoms` are modelled
with it; the evaluator only ever indexes with `at < Natoms`). -/
def atomDefault : Atom := ⟨"", "", "", Char.ofNat 0, 0, 0, 0, 0⟩

structure PSystem where
  atoms : List Atom
  coords : List Vec3
  box : PBox
  regexMatch : String → String → Bool
  gridSize : Vec3 → Vec3 → ℕ → ℕ × ℕ × ℕ

/-- A string child of a keyword node: a plain string or a regex. -/
inductive TextChild where
  | str (s : String)
  | regex (pat : String)
deriving DecidableEq

/-- An integer child of a keyword node: a single integer or an inclusive
range (from `int_or_range`). -/
inductive IntChild where
  | one (v : ℤ)
  | range (i1 i2 : ℤ)
deriving DecidableEq

/-- The selection AST (`AstNode`).  Node codes with AST children carry them
positionally; keyword leaves carry their variant children as data.  The
`point` / `plane` / `vector` codes are outside every claim and are omitted. -/
inductive Ast where
  | int (v : ℤ)
  | float (v : ℚ)
  | x
  | y
  | z
  | beta
  | occ
  | uminus (a : Ast)
  | plus (a b : Ast)
  | minus (a b : Ast)
  | mult (a b : Ast)
  | div (a b : Ast)
  | eq (a b : Ast)
  | neq (a b : Ast)
  | lt (a b : Ast)
  | gt (a b : Ast)
  | leq (a b : Ast)
  | geq (a b : Ast)
  | and (a b : Ast)
  | or (a b : Ast)
  | not (a : Ast)
  | within (d : ℚ) (periodic : Bool) (inner : Ast)
  | byres (a : Ast)
  | all
  | name (cs : List TextChild)
  | resname (cs : List TextChild)
  | tag (cs : List TextChild)
  | chain (cs : List String)
  | residKw (cs : List IntChild)
  | resindexKw (cs : List IntChild)
  | indexKw (cs : List IntChild)
  | precomputed (ids : List ℕ)
  | void
deriving DecidableEq

/-- `is_node_pure`: false iff the node or one of its AST descendants is
coordinate-dependent (`is_coordinate_dependent`: the `x`/`y`/`z`/`within`
codes; `point`/`plane`/`vector` are omitted). -/
def Ast.isPure : Ast → Bool
  | .x | .y | .z => false
  | .within _ _ _ => false
  | .uminus a => a.isPure
  | .plus a b | .minus a b | .mult a b | .div a b => a.isPure && b.isPure
  | .eq a b | .neq a b | .lt a b | .gt a b | .leq a b | .geq a b =>
      a.isPure && b.isPure
  | .and a b | .or a b => a.isPure && b.isPure
  | .not a => a.isPure
  | .byres a => a.isPure
  | _ => true

/-- `sys->atoms[at]`. -/
def PSystem.atomAt (sys : PSystem) (at_ : ℕ) : Atom := sys.atoms.getD at_ atomDefault

/-- `sys->num_atoms()`. -/
def PSystem.natoms (sys : PSystem) : ℕ := sys.atoms.length

/-- `eval_numeric`.  The `TOK_DIV` case is translated verbatim: it evaluates
child 0 into `v`, throws `"Divition by zero in selection!"` when `v == 0`, and
returns `child1 / v` — i.e. the *first* operand is used as the divisor.  Node
codes past the end of the `if` chain fall off the function without a `return`
(undefined behaviour), modelled as an error. -/
def evalNumeric (sys : PSystem) : Ast → ℕ → Except String ℚ
  | .int v, _ => .ok (Rat.divInt v 1)
  | .float v, _ => .ok v
  | .x, at_ => .ok (sys.coords.getD at_ ⟨0, 0, 0⟩).x
  | .y, at_ => .ok (sys.coords.getD at_ ⟨0, 0, 0⟩).y
  | .z, at_ => .ok (sys.coords.getD at_ ⟨0, 0, 0⟩).z
  | .beta, at_ => .ok (sys.atomAt at_).beta
  | .occ, at_ => .ok (sys.atomAt at_).occupancy
  | .uminus a, at_ => do
    let v ← evalNumeric sys a at_
    return qneg v
  | .plus a b, at_ => do
    let v1 ← evalNumeric sys a at_
    let v2 ← evalNumeric sys b at_
    return qadd v1 v2
  | .minus a b, at_ => do
    let v1 ← evalNumeric sys a at_
    let v2 ← evalNumeric sys b at_
    return qsub v1 v2
  | .mult a b, at_ => do
    let v1 ← evalNumeric sys a at_
    let v2 ← evalNumeric sys b at_
    return qmul v1 v2
  | .div a b, at_ => do
    let v ← evalNumeric sys a at_
    if v = 0 then .error "Divition by zero in selection!"
    else do
      let v2 ← evalNumeric sys b at_
      return qdiv v2 v
  | _, _ => .error "eval_numeric: node code unhandled by the if chain (undefined behavior)"

/-- The inclusive integer range `i1..i2` (the `for(k=i1;k<=i2;++k)` loops of
the keyword cases). -/
def intRangeIncl (i1 i2 : ℤ) : List ℤ :=
  (List.range (i2 + 1 - i1).toNat).map fun j => i1 + j

/-- The gap-filling loops of the `TOK_NOT` case, for a sorted operand `r`:
indices below `r[0]`, the gaps between consecutive entries, and the tail up
to `N`. -/
def gapFill (N : ℕ) (r : List ℕ) : List ℕ :=
  List.range (r.headD 0) ++
    (r.zip r.tail).flatMap (fun p => List.range' (p.1 + 1) (p.2 - p.1 - 1)) ++
    List.range' (r.getLastD 0 + 1) (N - (r.getLastD 0 + 1))

/-- A filtering loop whose predicate may throw (the comparison cases call
`eval_numeric` per atom; the first throw aborts the loop). -/
def filterExcept (f : ℕ → Except String Bool) : List ℕ → Except String (List ℕ)
  | [] => .ok []
  | a :: l => do
    let b ← f a
    let rest ← filterExcept f l
    return if b then a :: rest else rest

/-- The common body of the string-keyword cases (`TOK_NAME`, `TOK_RESNAME`,
`TOK_TAG`): for each child in order, scan all atoms; plain strings compare
for equality, regexes through the `regexMatch` oracle. -/
def keywordTextEval (sys : PSystem) (field : Atom → String)
    (cs : List TextChild) : List ℕ :=
  cs.flatMap fun c =>
    match c with
    | .str s => (List.range sys.natoms).filter fun a => field (sys.atomAt a) = s
    | .regex p =>
      (List.range sys.natoms).filter fun a => sys.regexMatch p (field (sys.atomAt a))

/-- The common body of the integer-keyword cases (`TOK_RESID`,
`TOK_RESINDEX`): single integers match by equality, ranges loop `k=i1..i2`
scanning all atoms for each `k`. -/
def keywordIntEval (sys : PSystem) (field : Atom → ℤ) (cs : List IntChild) :
    List ℕ :=
  cs.flatMap fun c =>
    match c with
    | .one k => (List.range sys.natoms).filter fun a => field (sys.atomAt a) = k
    | .range i1 i2 =>
      (intRangeIncl i1 i2).flatMap fun k =>
        (List.range sys.natoms).filter fun a => field (sys.atomAt a) = k

/-- The `TOK_INDEX` case: indices are kept only when in `[0, Natoms)`. -/
def indexEval (N : ℕ) (cs : List IntChild) : List ℕ :=
  cs.flatMap fun c =>
    match c with
    | .one k => if 0 ≤ k ∧ k < (N : ℤ) then [k.toNat] else []
    | .range i1 i2 =>
      (intRangeIncl i1 i2).flatMap fun k =>
        if 0 ≤ k ∧ k < (N : ℤ) then [k.toNat] else []

/-- The comparison cases: filter the subspace (or all atoms) by a numeric
comparison of the two children evaluated per atom. -/
def cmpEval (sys : PSystem) (f : ℚ → ℚ → Bool) (a b : Ast)
    (ss : Option (List ℕ)) : Except String (List ℕ) :=
  filterExcept
    (fun at_ => do
      let v1 ← evalNumeric sys a at_
      let v2 ← evalNumeric sys b at_
      return f v1 v2)
    (match ss with | none => List.range sys.natoms | some l => l)

/-- `eval_node`.  Translated case by case:
* `TOK_PRECOMPUTED` returns the stored list, or its `std::set_intersection`
  with the subspace — *without sorting either input first*;
* `TOK_NOT` sorts the operand and fills the gaps; on an empty operand the
  C++ reads `res1[0]` out of bounds (modelled as an error);
* `TOK_OR` / `TOK_AND` sort both operand results and merge; AND passes the
  *raw, unsorted* first result as the second child's subspace;
* keyword cases ignore the subspace entirely;
* `TOK_WITHIN` evaluates the inner expression with a NULL subspace, uses the
  subspace (or all atoms) as the source selection, and runs the within-of-set
  `Grid_searcher` constructor with `include_self=true`, `absolute_index=true`;
* `TOK_BY` collects the resindexes of the operand result and rescans all atoms;
* node codes unhandled by the `switch` leave the cleared result empty. -/
def evalNode (sys : PSystem) : Ast → Option (List ℕ) → Except String (List ℕ)
  | .precomputed ids, ss =>
    match ss with
    | none => .ok ids
    | some sub => .ok (setIntersectionCpp sub ids)
  | .not a, ss => do
    let res1 ← evalNode sys a ss
    match cppSort res1 with
    | [] => .error "eval_node NOT: res1[0] read on an empty operand (undefined behavior)"
    | _ :: _ => .ok (gapFill sys.natoms (cppSort res1))
  | .or a b, ss => do
    let res1 ← evalNode sys a ss
    let res2 ← evalNode sys b ss
    return setUnionCpp (cppSort res1) (cppSort res2)
  | .and a b, ss => do
    let res1 ← evalNode sys a ss
    let res2 ← evalNode sys b (some res1)
    return setIntersectionCpp (cppSort res1) (cppSort res2)
  | .name cs, _ => .ok (keywordTextEval sys (fun a => a.name) cs)
  | .resname cs, _ => .ok (keywordTextEval sys (fun a => a.resname) cs)
  | .tag cs, _ => .ok (keywordTextEval sys (fun a => a.tag) cs)
  | .chain cs, _ =>
    .ok (cs.flatMap fun s =>
      (List.range sys.natoms).filter fun a =>
        (sys.atomAt a).chain = s.toList.headD (Char.ofNat 0))
  | .residKw cs, _ => .ok (keywordIntEval sys (fun a => a.resid) cs)
  | .resindexKw cs, _ => .ok (keywordIntEval sys (fun a => a.resindex) cs)
  | .indexKw cs, _ => .ok (indexEval sys.natoms cs)
  | .within d periodic inner, ss => do
    let res2 ← evalNode sys inner none
    return gridSearcherWithin sys.gridSize sys.box d sys.coords
      (match ss with | none => List.range sys.natoms | some sub => sub)
      res2 true true periodic
  | .byres a, ss => do
    let res1 ← evalNode sys a ss
    return (List.range sys.natoms).filter fun at_ =>
      (res1.map fun i => (sys.atomAt i).resindex).contains (sys.atomAt at_).resindex
  | .all, _ => .ok (List.range sys.natoms)
  | .eq a b, ss => cmpEval sys (fun v1 v2 => decide (v1 = v2)) a b ss
  | .neq a b, ss => cmpEval sys (fun v1 v2 => decide (¬ v1 = v2)) a b ss
  | .lt a b, ss => cmpEval sys (fun v1 v2 => decide (v1 < v2)) a b ss
  | .gt a b, ss => cmpEval sys (fun v1 v2 => decide (v2 < v1)) a b ss
  | .leq a b, ss => cmpEval sys (fun v1 v2 => decide (v1 ≤ v2)) a b ss
  | .geq a b, ss => cmpEval sys (fun v1 v2 => decide (v2 ≤ v1)) a b ss
  | _, _ => .ok []

/-- `do_optimization`.  Trivial leaves are skipped; a pure node other than a
unary minus is replaced by `TOK_PRECOMPUTED` holding `eval_node`'s result
*as produced, unsorted*; a pure unary minus only folds a literal child; an
impure AND whose left child is impure and right child pure swaps the two;
then the pass recurses into the (possibly updated) children.  `eval_node`
can throw during precomputation, hence the `Except`. -/
def optimize (sys : PSystem) : Ast → Except String Ast
  | .void => .ok .void
  | .int v => .ok (.int v)
  | .float v => .ok (.float v)
  | .uminus a =>
    if (Ast.uminus a).isPure then
      match a with
      | .int v => .ok (.int (-v))
      | .float v => .ok (.float (qneg v))
      | _ => do
        let a' ← optimize sys a
        return .uminus a'
    else do
      let a' ← optimize sys a
      return .uminus a'
  | .and a b =>
    if (Ast.and a b).isPure then do
      let ids ← evalNode sys (.and a b) none
      return .precomputed ids
    else if ¬ a.isPure ∧ b.isPure then do
      let b' ← optimize sys b
      let a' ← optimize sys a
      return .and b' a'
    else do
      let a' ← optimize sys a
      let b' ← optimize sys b
      return .and a' b'
  | .or a b =>
    if (Ast.or a b).isPure then do
      let ids ← evalNode sys (.or a b) none
      return .precomputed ids
    else do
      let a' ← optimize sys a
      let b' ← optimize sys b
      return .or a' b'
  | .not a =>
    if (Ast.not a).isPure then do
      let ids ← evalNode sys (.not a) none
      return .precomputed ids
    else do
      let a' ← optimize sys a
      return .not a'
  | .byres a =>
    if (Ast.byres a).isPure then do
      let ids ← evalNode sys (.byres a) none
      return .precomputed ids
    else do
      let a' ← optimize sys a
      return .byres a'
  | .within d per inner => do
    let inner' ← optimize sys inner
    return .within d per inner'
  | .plus a b =>
    if (Ast.plus a b).isPure then do
      let ids ← evalNode sys (.plus a b) none
      return .precomputed ids
    else do
      let a' ← optimize sys a
      let b' ← optimize sys b
      return .plus a' b'
  | .minus a b =>
    if (Ast.minus a b).isPure then do
      let ids ← evalNode sys (.minus a b) none
      return .precomputed ids
    else do
      let a' ← optimize sys a
      let b' ← optimize sys b
      return .minus a' b'
  | .mult a b =>
    if (Ast.mult a b).isPure then do
      let ids ← evalNode sys (.mult a b) none
      return .precomputed ids
    else do
      let a' ← optimize sys a
      let b' ← optimize sys b
      return .mult a' b'
  | .div a b =>
    if (Ast.div a b).isPure then do
      let ids ← evalNode sys (.div a b) none
      return .precomputed ids
    else do
      let a' ← optimize sys a
      let b' ← optimize sys b
      return .div a' b'
  | .eq a b =>
    if (Ast.eq a b).isPure then do
      let ids ← evalNode sys (.eq a b) none
      return .precomputed ids
    else do
      let a' ← optimize sys a
      let b' ← optimize sys b
      return .eq a' b'
  | .neq a b =>
    if (Ast.neq a b).isPure then do
      let ids ← evalNode sys (.neq a b) none
      return .precomputed ids
    else do
      let a' ← optimize sys a
      let b' ← optimize sys b
      return .neq a' b'
  | .lt a b =>
    if (Ast.lt a b).isPure then do
      let ids ← evalNode sys (.lt a b) none
      return .precomputed ids
    else do
      let a' ← optimize sys a
      let b' ← optimize sys b
      return .lt a' b'
  | .gt a b =>
    if (Ast.gt a b).isPure then do
      let ids ← evalNode sys (.gt a b) none
      return .precomputed ids
    else do
      let a' ← optimize sys a
      let b' ← optimize sys b
      return .gt a' b'
  | .leq a b =>
    if (Ast.leq a b).isPure then do
      let ids ← evalNode sys (.leq a b) none
      return .precomputed ids
    else do
      let a' ← optimize sys a
      let b' ← optimize sys b
      return .leq a' b'
  | .geq a b =>
    if (Ast.geq a b).isPure then do
      let ids ← evalNode sys (.geq a b) none
      return .precomputed ids
    else do
      let a' ← optimize sys a
      let b' ← optimize sys b
      return .geq a' b'
  | .x => .ok .x
  | .y => .ok .y
  | .z => .ok .z
  | .beta => do
    let ids ← evalNode sys .beta none
    return .precomputed ids
  | .occ => do
    let ids ← evalNode sys .occ none
    return .precomputed ids
  | .all => do
    let ids ← evalNode sys .all none
    return .precomputed ids
  | .name cs => do
    let ids ← evalNode sys (.name cs) none
    return .precomputed ids
  | .resname cs => do
    let ids ← evalNode sys (.resname cs) none
    return .precomputed ids
  | .tag cs => do
    let ids ← evalNode sys (.tag cs) none
    return .precomputed ids
  | .chain cs => do
    let ids ← evalNode sys (.chain cs) none
    return .precomputed ids
  | .residKw cs => do
    let ids ← evalNode sys (.residKw cs) none
    return .precomputed ids
  | .resindexKw cs => do
    let ids ← evalNode sys (.resindexKw cs) none
    return .precomputed ids
  | .indexKw cs => do
    let ids ← evalNode sys (.indexKw cs) none
    return .precomputed ids
  | .precomputed ids => do
    let ids' ← evalNode sys (.precomputed ids) none
    return .precomputed ids'

/-- `Selection_parser::apply`: optimize iff the tree is coordinate-dependent
(`has_coord` is `!is_node_pure(tree)`, set by `create_ast`), evaluate the
root with a NULL subspace, and sort — *only* sort, no deduplication. -/
def applySys (sys : PSystem) (tree : Ast) : Except String (List ℕ) := do
  let t ← if tree.isPure then pure tree else optimize sys tree
  let res ← evalNode sys t none
  return cppSort res

/-! ## The tokenizer and grammar (`selection_parser.cpp`)

`recognize` / `tokenize` / `Grammar` / `create_ast`.

Modelling conventions:
* A token is a `Tok`; payload-carrying tokens store their value
  (`boost::lexical_cast<int>` is `String.toInt?`; a leading `+` cannot reach
  the cast because `+` always splits into its own token, so the two agree on
  every reachable input; `lexical_cast<float>` is `parseFloatQ`, the usual
  optional-sign decimal form with optional fraction and exponent).
* The quoted-token branch of `tokenize` (`"` / `'` delimited regexes) is
  outside every claim and is omitted; no input below contains a quote.
* The `dist`/`point`/`vector`/`plane` node payloads are omitted from `Ast`
  (no claim exercises them); `distanceRuleR` consumes tokens exactly as
  `distance_rule` does but yields `Ast.void` where the C++ builds those
  nodes (including the path where `distance_rule` returns `true` without
  ever setting `res`).
* `create_ast` throws a syntax error built from the offending token's
  position; the model's error value is that token position `pos` (the C++
  message interpolates `token_ends[pos]` into the selection text).
* Grammar rules advance the shared cursor even when they fail after
  consuming tokens (`expect` never rolls back); each rule is a function
  `cur ↦ (parsed?, cur')` and failed alternatives pass their final cursor
  to the next alternative, exactly as the C++ `||` chains do. -/

inductive Tok where
  | plus
  | mult
  | div
  | minus
  | lparen
  | rparen
  | eq
  | neq
  | lt
  | gt
  | leq
  | geq
  | x
  | y
  | z
  | occ
  | beta
  | or
  | and
  | not
  | within
  | periodic (v : Bool)
  | of
  | byKw
  | residue
  | name
  | resname
  | tag
  | chain
  | resid
  | index
  | resindex
  | all
  | to
  | dist
  | point
  | vector
  | plane
  | int (v : ℤ)
  | float (v : ℚ)
  | str (s : String)
  | regex (s : String)
deriving DecidableEq, BEq

def Tok.isInt : Tok → Bool
  | .int _ => true
  | _ => false

def Tok.isFloat : Tok → Bool
  | .float _ => true
  | _ => false

def Tok.isStrTok : Tok → Bool
  | .str _ => true
  | _ => false

def Tok.isRegexTok : Tok → Bool
  | .regex _ => true
  | _ => false

def Tok.isPeriodicTok : Tok → Bool
  | .periodic _ => true
  | _ => false

def Tok.intVal : Tok → ℤ
  | .int v => v
  | _ => 0

/-- `child_as_float_or_int`. -/
def Tok.floatVal : Tok → ℚ
  | .float v => v
  | .int v => Rat.divInt v 1
  | _ => 0

def Tok.strVal : Tok → String
  | .str s => s
  | .regex s => s
  | _ => ""

def Tok.boolVal : Tok → Bool
  | .periodic v => v
  | _ => false

/-- Value of a digit string (most significant first). -/
def digitsVal (l : List Char) : ℕ :=
  l.foldl (fun a c => a * 10 + (c.toNat - 48)) 0

/-- `boost::lexical_cast<float>`: `[+-] digits [. digits] [(e|E) [+-] digits]`
with at least one mantissa digit, full consumption required. -/
def parseFloatQ (s : String) : Option ℚ :=
  let l := s.toList
  let sl : ℤ × List Char :=
    match l with
    | '-' :: r => (-1, r)
    | '+' :: r => (1, r)
    | _ => (1, l)
  let ip := sl.2.takeWhile Char.isDigit
  let l2 := sl.2.dropWhile Char.isDigit
  let fl : List Char × List Char :=
    match l2 with
    | '.' :: r => (r.takeWhile Char.isDigit, r.dropWhile Char.isDigit)
    | _ => ([], l2)
  if ip.isEmpty ∧ fl.1.isEmpty then none
  else
    let mant : ℤ := sl.1 * (digitsVal (ip ++ fl.1) : ℤ)
    let den : ℕ := 10 ^ fl.1.length
    match fl.2 with
    | [] => some (Rat.divInt mant den)
    | 'e' :: r => parseExpPart mant den r
    | 'E' :: r => parseExpPart mant den r
    | _ => none
where
  parseExpPart (mant : ℤ) (den : ℕ) (r : List Char) : Option ℚ :=
    let er : ℤ × List Char :=
      match r with
      | '-' :: rr => (-1, rr)
      | '+' :: rr => (1, rr)
      | _ => (1, r)
    let ed := er.2.takeWhile Char.isDigit
    if ed.isEmpty ∨ ¬ (er.2.dropWhile Char.isDigit).isEmpty then none
    else
      let e : ℤ := er.1 * (digitsVal ed : ℤ)
      if 0 ≤ e then some (Rat.divInt (mant * 10 ^ e.toNat) den)
      else some (Rat.divInt mant (den * 10 ^ (-e).toNat))

/-- `boost::lexical_cast<int>`: an optional minus sign and a nonempty digit
string, nothing else (a leading `+` never reaches the cast: `+` always splits
into its own token). -/
def intFromChars (l : List Char) : Option ℤ :=
  match l with
  | '-' :: r =>
    if r ≠ [] ∧ r.all Char.isDigit then some (-(digitsVal r : ℤ)) else none
  | _ =>
    if l ≠ [] ∧ l.all Char.isDigit then some ((digitsVal l : ℤ)) else none

/-- `recognize`: the keyword table compares the lower-cased token, the
fallback casts the *original* spelling to int, then float, then keeps it as
a plain string when alphanumeric and as a regex otherwise.  (Comparisons work
on the character list so that every step reduces inside the kernel.) -/
def recognize (s : String) : Tok :=
  let low := String.mk (s.data.map Char.toLower)
  if low = "+" then .plus
  else if low = "*" then .mult
  else if low = "/" then .div
  else if low = "-" then .minus
  else if low = "(" then .lparen
  else if low = ")" then .rparen
  else if low = "=" ∨ low = "==" then .eq
  else if low = "<>" ∨ low = "!=" then .neq
  else if low = "<" then .lt
  else if low = ">" then .gt
  else if low = "<=" then .leq
  else if low = ">=" then .geq
  else if low = "x" then .x
  else if low = "y" then .y
  else if low = "z" then .z
  else if low = "occupancy" then .occ
  else if low = "beta" then .beta
  else if low = "or" then .or
  else if low = "and" then .and
  else if low = "not" then .not
  else if low = "within" then .within
  else if low = "periodic" ∨ low = "nonperiodic" ∨ low = "pbc" ∨ low = "nopbc" then
    .periodic (low = "periodic" ∨ low = "pbc")
  else if low = "of" then .of
  else if low = "by" then .byKw
  else if low = "res" ∨ low = "residue" then .residue
  else if low = "name" then .name
  else if low = "resname" then .resname
  else if low = "tag" then .tag
  else if low = "chain" then .chain
  else if low = "resid" then .resid
  else if low = "index" then .index
  else if low = "resindex" then .resindex
  else if low = "all" then .all
  else if low = "to" then .to
  else if low = "dist" ∨ low = "distance" then .dist
  else if low = "point" then .point
  else if low = "vector" then .vector
  else if low = "plane" then .plane
  else
    match intFromChars s.data with
    | some v => .int v
    | none =>
      match parseFloatQ s with
      | some v => .float v
      | none => if s.toList.all Char.isAlphanum then .str s else .regex s

/-- The `at()` helper of the tokenizer: the character at index `i`, the null
character past either end (a negative `int` compares above `size_t` bounds in
the C++ and also yields 0). -/
def charAtI (s : List Char) (i : ℤ) : Char :=
  if 0 ≤ i ∧ i < (s.length : ℤ) then s.getD i.toNat (Char.ofNat 0) else Char.ofNat 0

/-- `end_token(s, b, i)`: if a token is open (`b ≥ 0`) and non-empty
(`b ≤ i < size`), recognize `s[b..i]` and move `b` to `i + 1`. -/
def endTok (s : List Char) (b i : ℤ) (acc : List Tok) : List Tok × ℤ :=
  if 0 ≤ b ∧ b ≤ i ∧ i < (s.length : ℤ) then
    (acc ++ [recognize (String.mk ((s.drop b.toNat).take (i.toNat + 1 - b.toNat)))], i + 1)
  else (acc, b)

/-- The character-scanning loop of `tokenize` (`cur` is the position, `b` the
start of the open token or `-1`); each iteration advances `cur` by at least
one, so `s.length + 1` fuel never runs out. -/
def tokenizeLoop (s : List Char) : ℕ → ℕ → ℤ → List Tok → Option (List Tok)
  | 0, _, _, _ => none
  | fuel + 1, cur, b, acc =>
    if cur < s.length then
      let ch := s.getD cur (Char.ofNat 0)
      if ch.isWhitespace then
        let r := endTok s b ((cur : ℤ) - 1) acc
        tokenizeLoop s fuel (cur + 1) (-1) r.1
      else
        let b1 := if b < 0 then (cur : ℤ) else b
        if (ch = 'e' ∨ ch = 'E') ∧ charAtI s ((cur : ℤ) + 1) = '-' ∧
            (charAtI s ((cur : ℤ) - 1)).isDigit then
          tokenizeLoop s fuel (cur + 2) b1 acc
        else if ch = '+' ∨ ch = '*' ∨ ch = '/' ∨ ch = '(' ∨ ch = ')' ∨ ch = '-' then
          let r1 := endTok s b1 ((cur : ℤ) - 1) acc
          let r2 := endTok s r1.2 (cur : ℤ) r1.1
          tokenizeLoop s fuel (cur + 1) r2.2 r2.1
        else if ch = '>' then
          let r1 := endTok s b1 ((cur : ℤ) - 1) acc
          if charAtI s ((cur : ℤ) + 1) = '=' then
            let r2 := endTok s r1.2 ((cur : ℤ) + 1) r1.1
            tokenizeLoop s fuel (cur + 2) r2.2 r2.1
          else
            let r2 := endTok s r1.2 (cur : ℤ) r1.1
            tokenizeLoop s fuel (cur + 1) r2.2 r2.1
        else if ch = '<' then
          let r1 := endTok s b1 ((cur : ℤ) - 1) acc
          if charAtI s ((cur : ℤ) + 1) = '=' ∨ charAtI s ((cur : ℤ) + 1) = '>' then
            let r2 := endTok s r1.2 ((cur : ℤ) + 1) r1.1
            tokenizeLoop s fuel (cur + 2) r2.2 r2.1
          else
            let r2 := endTok s r1.2 (cur : ℤ) r1.1
            tokenizeLoop s fuel (cur + 1) r2.2 r2.1
        else if ch = '=' then
          let r1 := endTok s b1 ((cur : ℤ) - 1) acc
          if charAtI s ((cur : ℤ) + 1) = '=' then
            let r2 := endTok s r1.2 ((cur : ℤ) + 1) r1.1
            tokenizeLoop s fuel (cur + 2) r2.2 r2.1
          else
            let r2 := endTok s r1.2 (cur : ℤ) r1.1
            tokenizeLoop s fuel (cur + 1) r2.2 r2.1
        else if ch = '!' ∧ charAtI s ((cur : ℤ) + 1) = '=' then
          let r1 := endTok s b1 ((cur : ℤ) - 1) acc
          let r2 := endTok s r1.2 ((cur : ℤ) + 1) r1.1
          tokenizeLoop s fuel (cur + 2) r2.2 r2.1
        else
          tokenizeLoop s fuel (cur + 1) b1 acc
    else
      some (endTok s b ((cur : ℤ) - 1) acc).1

/-- `tokenize`. -/
def tokenizeStr (s : String) : Option (List Tok) :=
  tokenizeLoop s.toList (s.toList.length + 1) 0 (-1) []

/-- `Grammar::expect`: if the cursor is in range and the token satisfies the
code test, return it and advance; otherwise leave the cursor alone. -/
def expectIs (ts : List Tok) (cur : ℕ) (p : Tok → Bool) : Option Tok × ℕ :=
  match ts.get? cur with
  | none => (none, cur)
  | some t => if p t then (some t, cur + 1) else (none, cur)

/-- `int_or_range`: an int, optionally followed by `to` or `-` and a second
int making an inclusive range; when the second int is missing the single int
is kept *and the `to`/`-` token stays consumed*. -/
def intOrRangeR (ts : List Tok) (cur : ℕ) : Option IntChild × ℕ :=
  let v1 := expectIs ts cur Tok.isInt
  match v1.1 with
  | none => (none, v1.2)
  | some t1 =>
    let r := expectIs ts v1.2 (fun t => t == Tok.to || t == Tok.minus)
    match r.1 with
    | none => (some (.one t1.intVal), r.2)
    | some _ =>
      let v2 := expectIs ts r.2 Tok.isInt
      match v2.1 with
      | none => (some (.one t1.intVal), v2.2)
      | some t2 => (some (.range t1.intVal t2.intVal), v2.2)

/-- The `while(int_or_range(tok))` loop of `keyword_int_list`. -/
def intListLoop (ts : List Tok) : ℕ → ℕ → List IntChild → List IntChild × ℕ
  | 0, cur, acc => (acc, cur)
  | fuel + 1, cur, acc =>
    match intOrRangeR ts cur with
    | (none, c1) => (acc, c1)
    | (some c, c1) => intListLoop ts fuel c1 (acc ++ [c])

/-- `keyword_int_list`: `resid` / `resindex` / `index` followed by at least
one int-or-range. -/
def keywordIntListR (ts : List Tok) (fuel cur : ℕ) : Option Ast × ℕ :=
  let k := expectIs ts cur
    (fun t => t == Tok.resid || t == Tok.resindex || t == Tok.index)
  match k.1 with
  | none => (none, k.2)
  | some kw =>
    let l := intListLoop ts fuel k.2 []
    if l.1.isEmpty then (none, l.2)
    else
      (some (if kw == Tok.resid then Ast.residKw l.1
        else if kw == Tok.resindex then Ast.resindexKw l.1
        else Ast.indexKw l.1), l.2)

/-- The `while(expect(STR) || expect(REGEX))` loop of `keyword_text_list`. -/
def textListLoop (ts : List Tok) : ℕ → ℕ → List TextChild → List TextChild × ℕ
  | 0, cur, acc => (acc, cur)
  | fuel + 1, cur, acc =>
    let r := expectIs ts cur (fun t => t.isStrTok || t.isRegexTok)
    match r.1 with
    | none => (acc, cur)
    | some tok =>
      textListLoop ts fuel r.2
        (acc ++ [match tok with
          | .str s => TextChild.str s
          | .regex s => TextChild.regex s
          | _ => TextChild.str ""])

/-- `keyword_text_list`: `name` / `resname` / `tag` / `chain` followed by at
least one string or regex (the `chain` node keeps the raw strings; its
evaluator reads `child_as_str`, so the str/regex distinction is immaterial
there). -/
def keywordTextListR (ts : List Tok) (fuel cur : ℕ) : Option Ast × ℕ :=
  let k := expectIs ts cur
    (fun t => t == Tok.name || t == Tok.resname || t == Tok.tag || t == Tok.chain)
  match k.1 with
  | none => (none, k.2)
  | some kw =>
    let l := textListLoop ts fuel k.2 []
    if l.1.isEmpty then (none, l.2)
    else
      (some (if kw == Tok.name then Ast.name l.1
        else if kw == Tok.resname then Ast.resname l.1
        else if kw == Tok.tag then Ast.tag l.1
        else Ast.chain (l.1.map fun c =>
          match c with
          | .str s => s
          | .regex s => s)), l.2)

/-- The comparison node for a matched operator token. -/
def mkCmp (o : Tok) (a b : Ast) : Ast :=
  if o == Tok.eq then .eq a b
  else if o == Tok.neq then .neq a b
  else if o == Tok.lt then .lt a b
  else if o == Tok.gt then .gt a b
  else if o == Tok.leq then .leq a b
  else .geq a b

/-- Tags for the mutually recursive grammar rules; the loop rules carry the
tree built so far (the C++ `res` variable).  A single fuel-indexed
interpreter keeps every call kernel-reducible. -/
inductive GRule where
  | unaryMinus
  | numFactor
  | distanceRule
  | numTermLoop (res : Ast)
  | numTerm
  | numExprLoop (res : Ast)
  | numExpr
  | numComparison
  | logicalNot
  | withinRule
  | byResidue
  | logicalExprLoop (res : Ast)
  | logicalExpr
  | logicalOperand

/-- The grammar rules, one `GRule` case each (loop rules always yield `some`):
* `unaryMinus`: a `-` token followed by a numeric factor;
* `numFactor`: float / int / parenthesised `num_expr` / `x` / `y` / `z` /
  `beta` / `occupancy` / `distance_rule` / `unary_minus`, tried in that
  order; a failed compound alternative leaves the cursor where it stopped
  and the next alternative starts from there;
* `distanceRule`: `dist`/`distance`, optional periodicity, then `point` with
  three factors or `vector`/`plane` with six; node payloads omitted (see the
  section header): token consumption is modelled exactly and the result is
  `Ast.void`, including the C++ path returning `true` with `res` never
  assigned (no `point`/`vector`/`plane` token after `dist`);
* the loop rules are the C++ `while((expect(op1)||expect(op2)) && operand)`
  loops building left-associative chains (the `operand1`/`res` shuffle is
  exactly this fold);
* `numComparison`: `num_expr`, one comparison operator, `num_expr`;
* `withinRule`: `within`, a float-or-int distance, optional periodicity
  (default non-periodic), `of`, a logical operand;
* `byResidue`: `by res`/`by residue` and a logical operand;
* `logicalOperand`: parenthesised `logical_expr`, `num_comparison`, `all`,
  `logical_not`, `within_rule`, `by_residue`, `keyword_text_list`,
  `keyword_int_list`, in that order, threading the cursor through failed
  alternatives. -/
def gramR (ts : List Tok) : ℕ → GRule → ℕ → Option Ast × ℕ
  | 0, _, cur => (none, cur)
  | fuel + 1, .unaryMinus, cur =>
    let m := expectIs ts cur (fun t => t == Tok.minus)
    match m.1 with
    | none => (none, m.2)
    | some _ =>
      match gramR ts fuel .numFactor m.2 with
      | (none, c2) => (none, c2)
      | (some v, c2) => (some (Ast.uminus v), c2)
  | fuel + 1, .numFactor, cur =>
    let rest3 := fun (c : ℕ) =>
      let a4 := expectIs ts c (fun t => t == Tok.x)
      match a4.1 with
      | some _ => (some Ast.x, a4.2)
      | none =>
        let a5 := expectIs ts a4.2 (fun t => t == Tok.y)
        match a5.1 with
        | some _ => (some Ast.y, a5.2)
        | none =>
          let a6 := expectIs ts a5.2 (fun t => t == Tok.z)
          match a6.1 with
          | some _ => (some Ast.z, a6.2)
          | none =>
            let a7 := expectIs ts a6.2 (fun t => t == Tok.beta)
            match a7.1 with
            | some _ => (some Ast.beta, a7.2)
            | none =>
              let a8 := expectIs ts a7.2 (fun t => t == Tok.occ)
              match a8.1 with
              | some _ => (some Ast.occ, a8.2)
              | none =>
                match gramR ts fuel .distanceRule a8.2 with
                | (some r, c9) => (some r, c9)
                | (none, c9) => gramR ts fuel .unaryMinus c9
    let a1 := expectIs ts cur Tok.isFloat
    match a1.1 with
    | some t => (some (Ast.float t.floatVal), a1.2)
    | none =>
      let a2 := expectIs ts a1.2 Tok.isInt
      match a2.1 with
      | some t => (some (Ast.int t.intVal), a2.2)
      | none =>
        let a3 := expectIs ts a2.2 (fun t => t == Tok.lparen)
        match a3.1 with
        | none => rest3 a3.2
        | some _ =>
          match gramR ts fuel .numExpr a3.2 with
          | (none, c) => rest3 c
          | (some r, c) =>
            let rp := expectIs ts c (fun t => t == Tok.rparen)
            match rp.1 with
            | some _ => (some r, rp.2)
            | none => rest3 rp.2
  | fuel + 1, .distanceRule, cur =>
    let d := expectIs ts cur (fun t => t == Tok.dist)
    match d.1 with
    | none => (none, d.2)
    | some _ =>
      let p := expectIs ts d.2 Tok.isPeriodicTok
      let pt := expectIs ts p.2 (fun t => t == Tok.point)
      match pt.1 with
      | some _ =>
        match gramR ts fuel .numFactor pt.2 with
        | (none, c1) => (none, c1)
        | (some _, c1) =>
          match gramR ts fuel .numFactor c1 with
          | (none, c2) => (none, c2)
          | (some _, c2) =>
            match gramR ts fuel .numFactor c2 with
            | (none, c3) => (none, c3)
            | (some _, c3) => (some Ast.void, c3)
      | none =>
        let v := expectIs ts pt.2 (fun t => t == Tok.vector || t == Tok.plane)
        match v.1 with
        | none => (some Ast.void, v.2)
        | some _ =>
          match gramR ts fuel .numFactor v.2 with
          | (none, c1) => (none, c1)
          | (some _, c1) =>
            match gramR ts fuel .numFactor c1 with
            | (none, c2) => (none, c2)
            | (some _, c2) =>
              match gramR ts fuel .numFactor c2 with
              | (none, c3) => (none, c3)
              | (some _, c3) =>
                match gramR ts fuel .numFactor c3 with
                | (none, c4) => (none, c4)
                | (some _, c4) =>
                  match gramR ts fuel .numFactor c4 with
                  | (none, c5) => (none, c5)
                  | (some _, c5) =>
                    match gramR ts fuel .numFactor c5 with
                    | (none, c6) => (none, c6)
                    | (some _, c6) => (some Ast.void, c6)
  | fuel + 1, .numTermLoop res, cur =>
    let op := expectIs ts cur (fun t => t == Tok.mult || t == Tok.div)
    match op.1 with
    | none => (some res, op.2)
    | some o =>
      match gramR ts fuel .numFactor op.2 with
      | (none, c2) => (some res, c2)
      | (some operand2, c2) =>
        gramR ts fuel
          (.numTermLoop (if o == Tok.div then Ast.div res operand2 else Ast.mult res operand2)) c2
  | fuel + 1, .numTerm, cur =>
    match gramR ts fuel .numFactor cur with
    | (none, c1) => (none, c1)
    | (some operand1, c1) => gramR ts fuel (.numTermLoop operand1) c1
  | fuel + 1, .numExprLoop res, cur =>
    let op := expectIs ts cur (fun t => t == Tok.plus || t == Tok.minus)
    match op.1 with
    | none => (some res, op.2)
    | some o =>
      match gramR ts fuel .numTerm op.2 with
      | (none, c2) => (some res, c2)
      | (some operand2, c2) =>
        gramR ts fuel
          (.numExprLoop (if o == Tok.minus then Ast.minus res operand2 else Ast.plus res operand2)) c2
  | fuel + 1, .numExpr, cur =>
    match gramR ts fuel .numTerm cur with
    | (none, c1) => (none, c1)
    | (some operand1, c1) => gramR ts fuel (.numExprLoop operand1) c1
  | fuel + 1, .numComparison, cur =>
    match gramR ts fuel .numExpr cur with
    | (none, c1) => (none, c1)
    | (some operand1, c1) =>
      let op := expectIs ts c1 (fun t => t == Tok.eq || t == Tok.neq ||
        t == Tok.lt || t == Tok.gt || t == Tok.leq || t == Tok.geq)
      match op.1 with
      | none => (none, op.2)
      | some o =>
        match gramR ts fuel .numExpr op.2 with
        | (none, c3) => (none, c3)
        | (some operand2, c3) => (some (mkCmp o operand1 operand2), c3)
  | fuel + 1, .logicalNot, cur =>
    let n := expectIs ts cur (fun t => t == Tok.not)
    match n.1 with
    | none => (none, n.2)
    | some _ =>
      match gramR ts fuel .logicalOperand n.2 with
      | (none, c2) => (none, c2)
      | (some r, c2) => (some (Ast.not r), c2)
  | fuel + 1, .withinRule, cur =>
    let w := expectIs ts cur (fun t => t == Tok.within)
    match w.1 with
    | none => (none, w.2)
    | some _ =>
      let d := expectIs ts w.2 (fun t => t.isFloat || t.isInt)
      match d.1 with
      | none => (none, d.2)
      | some dt =>
        let p := expectIs ts d.2 Tok.isPeriodicTok
        let o := expectIs ts p.2 (fun t => t == Tok.of)
        match o.1 with
        | none => (none, o.2)
        | some _ =>
          match gramR ts fuel .logicalOperand o.2 with
          | (none, c5) => (none, c5)
          | (some expr, c5) =>
            (some (Ast.within dt.floatVal
              (match p.1 with
               | some ptok => ptok.boolVal
               | none => false) expr), c5)
  | fuel + 1, .byResidue, cur =>
    let b := expectIs ts cur (fun t => t == Tok.byKw)
    match b.1 with
    | none => (none, b.2)
    | some _ =>
      let r := expectIs ts b.2 (fun t => t == Tok.residue)
      match r.1 with
      | none => (none, r.2)
      | some _ =>
        match gramR ts fuel .logicalOperand r.2 with
        | (none, c3) => (none, c3)
        | (some expr, c3) => (some (Ast.byres expr), c3)
  | fuel + 1, .logicalExprLoop res, cur =>
    let op := expectIs ts cur (fun t => t == Tok.or || t == Tok.and)
    match op.1 with
    | none => (some res, op.2)
    | some o =>
      match gramR ts fuel .logicalOperand op.2 with
      | (none, c2) => (some res, c2)
      | (some operand2, c2) =>
        gramR ts fuel
          (.logicalExprLoop (if o == Tok.and then Ast.and res operand2 else Ast.or res operand2)) c2
  | fuel + 1, .logicalExpr, cur =>
    match gramR ts fuel .logicalOperand cur with
    | (none, c1) => (none, c1)
    | (some operand1, c1) => gramR ts fuel (.logicalExprLoop operand1) c1
  | fuel + 1, .logicalOperand, cur =>
    let alt7 := fun (c : ℕ) =>
      match keywordTextListR ts fuel c with
      | (some r, cQ) => (some r, cQ)
      | (none, cQ) => keywordIntListR ts fuel cQ
    let alt6 := fun (c : ℕ) =>
      match gramR ts fuel .byResidue c with
      | (some r, cQ) => (some r, cQ)
      | (none, cQ) => alt7 cQ
    let alt5 := fun (c : ℕ) =>
      match gramR ts fuel .withinRule c with
      | (some r, cQ) => (some r, cQ)
      | (none, cQ) => alt6 cQ
    let alt4 := fun (c : ℕ) =>
      match gramR ts fuel .logicalNot c with
      | (some r, cQ) => (some r, cQ)
      | (none, cQ) => alt5 cQ
    let alt3 := fun (c : ℕ) =>
      let a := expectIs ts c (fun t => t == Tok.all)
      match a.1 with
      | some _ => (some Ast.all, a.2)
      | none => alt4 a.2
    let alt2 := fun (c : ℕ) =>
      match gramR ts fuel .numComparison c with
      | (some r, cQ) => (some r, cQ)
      | (none, cQ) => alt3 cQ
    let lp := expectIs ts cur (fun t => t == Tok.lparen)
    match lp.1 with
    | none => alt2 lp.2
    | some _ =>
      match gramR ts fuel .logicalExpr lp.2 with
      | (none, c2) => alt2 c2
      | (some r, c2) =>
        let rp := expectIs ts c2 (fun t => t == Tok.rparen)
        match rp.1 with
        | some _ => (some r, rp.2)
        | none => alt2 rp.2

/-- `Grammar::run`: match the top-level `logical_expr` (its success flag is
ignored) and report the final cursor; the fuel bounds the depth of rule
invocations, which between any two token consumptions is constant, so
`10 * (length + 2)` is never exhausted. -/
def runGrammar (ts : List Tok) : Option Ast × ℕ :=
  gramR ts (10 * (ts.length + 2)) .logicalExpr 0

/-- `create_ast`: syntax error (carrying the offending token position, which
the C++ renders into the selection text via `token_ends`) iff the top-level
parse left tokens unconsumed; `none` stands for the never-assigned `tree`
when `logical_expr` fails after consuming every token. -/
def createAst (ts : List Tok) : Except ℕ (Option Ast) :=
  let r := runGrammar ts
  if r.2 ≠ ts.length then .error r.2 else .ok r.1

/-- `create_ast` applied to a selection string (`tokenize` then grammar);
`none` when the tokenizer model runs out of fuel (never on these inputs). -/
def compileSel (s : String) : Option (Except ℕ (Option Ast)) :=
  (tokenizeStr s).map createAst

theorem applySys_pure_eq (sys : PSystem) (tree : Ast) (hp : tree.isPure = true) :
    applySys sys tree =
      Except.bind (evalNode sys tree none) (fun res => Except.ok (cppSort res)) := by
  rw [applySys, if_pos hp]
  rfl

theorem applySys_impure_eq (sys : PSystem) (tree : Ast) (hp : ¬ tree.isPure = true) :
    applySys sys tree =
      Except.bind (optimize sys tree) (fun t =>
        Except.bind (evalNode sys t none) (fun res => Except.ok (cppSort res))) := by
  rw [applySys, if_neg hp]
  rfl

theorem sorted_of_bind_cppSort (x : Except String (List ℕ)) (r : List ℕ)
    (h : Except.bind x (fun res => Except.ok (cppSort res)) = .ok r) :
    List.Sorted (· ≤ ·) r := by
  cases x with
  | error e => exact Except.noConfusion h
  | ok res =>
    simp only [Except.bind, Except.ok.injEq] at h
    rw [← h]
    exact cppSort_sorted res

theorem applySys_ok_sorted (sys : PSystem) (tree : Ast) (r : List ℕ)
    (h : applySys sys tree = .ok r) : List.Sorted (· ≤ ·) r := by
  by_cases hp : tree.isPure = true
  · rw [applySys_pure_eq sys tree hp] at h
    exact sorted_of_bind_cppSort _ r h
  · rw [applySys_impure_eq sys tree hp] at h
    cases h1 : optimize sys tree with
    | error e =>
      rw [h1] at h
      exact Except.noConfusion h
    | ok t =>
      rw [h1] at h
      simp only [Except.bind] at h
      exact sorted_of_bind_cppSort _ r h

/-- Every index produced by the middle (gap) and tail loops of `gapFill` on a
sorted operand exceeds the operand's head. -/
theorem gapAux_gt (N : ℕ) : ∀ (s : List ℕ), List.Sorted (· ≤ ·) s →
    ∀ j, j ∈ (s.zip s.tail).flatMap
        (fun p => List.range' (p.1 + 1) (p.2 - p.1 - 1)) ++
      List.range' (s.getLastD 0 + 1) (N - (s.getLastD 0 + 1)) →
    s.headD 0 < j
  | [], _, j, hj => by
    simp only [List.tail_nil, List.zip_nil_right, List.flatMap_nil,
      List.nil_append, List.mem_range'_1, List.getLastD_nil, List.headD_nil] at hj ⊢
    omega
  | [a], _, j, hj => by
    simp only [List.tail_cons, List.zip_nil_right, List.flatMap_nil,
      List.nil_append, List.mem_range'_1, List.getLastD_cons, List.getLastD_nil,
      List.headD_cons] at hj ⊢
    omega
  | a :: b :: t, hs, j, hj => by
    have hpc := List.pairwise_cons.mp hs
    have hab : a ≤ b := hpc.1 b (by simp)
    have IH := gapAux_gt N (b :: t) hpc.2 j
    simp only [List.tail_cons, List.zip_cons_cons, List.flatMap_cons,
      List.getLastD_cons, List.mem_append, List.mem_range'_1,
      List.headD_cons] at hj IH ⊢
    rcases hj with (h | h) | h
    · omega
    · exact lt_of_le_of_lt hab (IH (Or.inl h))
    · exact lt_of_le_of_lt hab (IH (Or.inr h))

/-- Membership in `gapFill`: on a sorted, nonempty operand whose entries are
all below `N`, the gap-filling loops produce exactly the complement within
`[0, N)`. -/
theorem mem_gapFill (N : ℕ) : ∀ (s : List ℕ), List.Sorted (· ≤ ·) s →
    (∀ i ∈ s, i < N) → s ≠ [] → ∀ j, (j ∈ gapFill N s ↔ j < N ∧ j ∉ s)
  | [], _, _, hne => absurd rfl hne
  | [a], _, hlt, _ => by
    intro j
    have ha : a < N := hlt a (by simp)
    rw [gapFill]
    simp only [List.headD_cons, List.tail_cons, List.zip_nil_right,
      List.flatMap_nil, List.append_nil, List.getLastD_cons, List.getLastD_nil,
      List.mem_append, List.mem_range, List.mem_range'_1, List.mem_singleton]
    omega
  | a :: b :: t, hs, hlt, _ => by
    intro j
    have hpc := List.pairwise_cons.mp hs
    have hab : a ≤ b := hpc.1 b (by simp)
    have hbt : ∀ i ∈ t, b ≤ i := (List.pairwise_cons.mp hpc.2).1
    have hlt' : ∀ i ∈ b :: t, i < N := fun i hi => hlt i (List.mem_cons_of_mem a hi)
    have ha : a < N := hlt a (by simp)
    have hb : b < N := hlt' b (by simp)
    have IH := mem_gapFill N (b :: t) hpc.2 hlt' (by simp) j
    have GT := gapAux_gt N (b :: t) hpc.2 j
    rw [gapFill] at IH ⊢
    simp only [List.headD_cons, List.tail_cons, List.zip_cons_cons,
      List.flatMap_cons, List.getLastD_cons, List.mem_append, List.mem_range,
      List.mem_range'_1, List.mem_cons, List.not_mem_nil, or_false] at IH GT ⊢
    constructor
    · rintro ((h | (h | h)) | h)
      · refine ⟨by omega, ?_⟩
        rintro (rfl | rfl | hjt)
        · omega
        · omega
        · exact absurd (hbt j hjt) (by omega)
      · refine ⟨by omega, ?_⟩
        rintro (rfl | rfl | hjt)
        · omega
        · omega
        · exact absurd (hbt j hjt) (by omega)
      · have hbj : b < j := GT (Or.inl h)
        obtain ⟨hN, hnb⟩ := IH.mp (Or.inl (Or.inr h))
        refine ⟨hN, ?_⟩
        rintro (rfl | rfl | hjt)
        · omega
        · exact hnb (Or.inl rfl)
        · exact hnb (Or.inr hjt)
      · have hbj : b < j := GT (Or.inr h)
        obtain ⟨hN, hnb⟩ := IH.mp (Or.inr h)
        refine ⟨hN, ?_⟩
        rintro (rfl | rfl | hjt)
        · omega
        · exact hnb (Or.inl rfl)
        · exact hnb (Or.inr hjt)
    · rintro ⟨hN, hnot⟩
      have hja : j ≠ a := fun hh => hnot (Or.inl hh)
      have hjb : j ≠ b := fun hh => hnot (Or.inr (Or.inl hh))
      have hjt : j ∉ t := fun hh => hnot (Or.inr (Or.inr hh))
      by_cases hjlt : j < b
      · by_cases hja2 : j < a
        · exact Or.inl (Or.inl hja2)
        · exact Or.inl (Or.inr (Or.inl (by omega)))
      · have hjbt : ¬ (j = b ∨ j ∈ t) := by
          rintro (rfl | hh)
          · exact hjb rfl
          · exact hjt hh
        have hmem := IH.mpr ⟨hN, hjbt⟩
        rcases hmem with (h | h) | h
        · omega
        · exact Or.inl (Or.inr (Or.inr h))
        · exact Or.inr h

end Pteros

deriving instance DecidableEq for Except

namespace Pteros

/-! ## Concrete systems and trees for the evaluator claims -/

/-- A two-atom system: atom 0 is `CB`, atom 1 is `CA`, both `resid 1`, both
at `x = 1 > 0`. -/
def sysC2 : PSystem :=
  { atoms := [⟨"CB", "", "", Char.ofNat 0, 1, 0, 0, 0⟩,
              ⟨"CA", "", "", Char.ofNat 0, 1, 1, 0, 0⟩],
    coords := [⟨1, 0, 0⟩, ⟨1, 0, 0⟩],
    box := ⟨false, false, ⟨0, 0, 0⟩, id, fun _ _ => 0⟩,
    regexMatch := fun _ _ => false,
    gridSize := fun _ _ _ => (1, 1, 1) }

/-- The left operand `(x > 0 and name CA CB)` of the C2 query. -/
def treeC2A : Ast := .and (.gt .x (.int 0)) (.name [.str "CA", .str "CB"])

/-- The query `(x > 0 and name CA CB) and resid 1`. -/
def treeC2 : Ast := .and treeC2A (.residKw [.one 1])

/-- C2: for the query `(x > 0 and name CA CB) and resid 1` on `sysC2` each
operand alone selects both atoms, so the strict intersection is `[0, 1]` —
and the unoptimized evaluation returns it — but the full compiled query
returns `[1]`: `do_optimization` stores `name CA CB`'s result unsorted
(`[1, 0]`), and the `TOK_PRECOMPUTED` case feeds it, together with the raw
unsorted first-operand result as subspace, to `std::set_intersection`, whose
merge loop drops atom 0.  The AND result is not the strict intersection of
the operands and the optimization pass changes the answer. -/
theorem C2_and_intersection_broken :
    applySys sysC2 treeC2 = .ok [1] ∧
      applySys sysC2 treeC2A = .ok [0, 1] ∧
      applySys sysC2 (.residKw [.one 1]) = .ok [0, 1] ∧
      evalNode sysC2 treeC2 none = .ok [0, 1] := by
  refine ⟨by decide, by decide, by decide, by decide⟩

/-- C3: the `TOK_DIV` evaluator divides by the *first* operand: `4 / 2`
yields `1/2` (not `2`); `1 / 0` yields `0` without any error even though the
denominator is zero; and `0 / 5` throws the division-by-zero error even
though the denominator is `5`. -/
theorem C3_division_operands_swapped :
    evalNumeric sysC2 (.div (.int 4) (.int 2)) 0 = .ok (Rat.divInt 1 2) ∧
      evalNumeric sysC2 (.div (.int 1) (.int 0)) 0 = .ok 0 ∧
      evalNumeric sysC2 (.div (.int 0) (.int 5)) 0 =
        .error "Divition by zero in selection!" := by
  refine ⟨by decide, by decide, by decide⟩

/-- C5: compiling the dangling-operator query `name CA and` raises no error
at all: `logical_expr`'s loop `expect(TOK_AND)` consumes the `and` token
before the missing right operand is discovered, `run` returns
`pos = 3 = tokens.size()`, so `create_ast` does not throw and the partial
tree `name CA` is kept. -/
theorem C5_dangling_operator_accepted :
    compileSel "name CA and" = some (.ok (some (.name [.str "CA"]))) := by decide

/-- C4 (amended): every successful `apply` result is sorted ascending —
`apply` ends with `std::sort` — but duplicates are *not* removed (see the
counterexample). -/
theorem C4_apply_sorted (sys : PSystem) (tree : Ast) (r : List ℕ)
    (h : applySys sys tree = .ok r) : List.Sorted (· ≤ ·) r :=
  applySys_ok_sorted sys tree r h

/-- C4 witness: the duplicate-producing query still comes out sorted. -/
theorem C4_apply_sorted_witness :
    applySys sysC2 (.residKw [.one 1, .one 1]) = .ok [0, 0, 1, 1] ∧
      List.Sorted (· ≤ ·) [0, 0, 1, 1] :=
  ⟨by decide, C4_apply_sorted sysC2 (.residKw [.one 1, .one 1]) [0, 0, 1, 1] (by decide)⟩

/-- C4 counterexample: `resid 1 1` on the two-atom system (both `resid 1`)
returns every matching index twice — `apply` sorts but never deduplicates. -/
theorem C4_apply_duplicates :
    applySys sysC2 (.residKw [.one 1, .one 1]) = .ok [0, 0, 1, 1] ∧
      ¬ List.Nodup [0, 0, 1, 1] := by
  refine ⟨by decide, by decide⟩

/-- C6 (amended): when the operand's result is *nonempty* (and, as every
evaluator case guarantees, within `[0, N)`), `not E` returns exactly the
complement of `E`'s result within `[0, N)`.  For an empty operand the C++
reads `res1[0]` out of bounds instead (see the counterexample). -/
theorem C6_not_complement (sys : PSystem) (E : Ast) (ss : Option (List ℕ))
    (res : List ℕ) (hE : evalNode sys E ss = .ok res) (hne : res ≠ [])
    (hlt : ∀ i ∈ res, i < sys.natoms) :
    ∃ r, evalNode sys (.not E) ss = .ok r ∧
      ∀ j, j ∈ r ↔ (j < sys.natoms ∧ j ∉ res) := by
  have hperm := cppSort_perm res
  rcases hm : cppSort res with _ | ⟨x, xs⟩
  · rw [hm] at hperm
    exact absurd hperm.symm.eq_nil hne
  · refine ⟨gapFill sys.natoms (x :: xs), ?_, ?_⟩
    · have hun : evalNode sys (.not E) ss =
          Except.bind (evalNode sys E ss) (fun res1 =>
            match cppSort res1 with
            | [] => .error "eval_node NOT: res1[0] read on an empty operand (undefined behavior)"
            | _ :: _ => .ok (gapFill sys.natoms (cppSort res1))) := rfl
      rw [hun, hE]
      simp only [Except.bind]
      rw [hm]
    · have hsorted : List.Sorted (· ≤ ·) (x :: xs) := hm ▸ cppSort_sorted res
      have hlt' : ∀ i ∈ x :: xs, i < sys.natoms := by
        intro i hi
        exact hlt i (mem_cppSort.mp (hm ▸ hi))
      intro j
      rw [mem_gapFill sys.natoms (x :: xs) hsorted hlt' (by simp) j]
      constructor
      · rintro ⟨h1, h2⟩
        exact ⟨h1, fun hj => h2 (hm ▸ mem_cppSort.mpr hj)⟩
      · rintro ⟨h1, h2⟩
        refine ⟨h1, fun hj => h2 ?_⟩
        have : j ∈ cppSort res := hm ▸ hj
        exact mem_cppSort.mp this

/-- C6 witness: `not (name CA)` on the two-atom system is the complement of
`name CA`'s result `[1]`. -/
theorem C6_not_complement_witness :
    evalNode sysC2 (.name [.str "CA"]) none = .ok [1] ∧
      (∃ r, evalNode sysC2 (.not (.name [.str "CA"])) none = .ok r ∧
        ∀ j, j ∈ r ↔ (j < sysC2.natoms ∧ j ∉ [1])) :=
  ⟨by decide, C6_not_complement sysC2 (.name [.str "CA"]) none [1] (by decide)
    (by decide) (by decide)⟩

/-- C6 counterexample: with an operand selecting nothing, `not E` does not
return the complement `[0, N)` — it hits the out-of-bounds `res1[0]` read. -/
theorem C6_not_empty_operand :
    evalNode sysC2 (.residKw [.one 99]) none = .ok [] ∧
      evalNode sysC2 (.not (.residKw [.one 99])) none =
        .error "eval_node NOT: res1[0] read on an empty operand (undefined behavior)" := by
  refine ⟨by decide, by decide⟩

/-- C8: `resid 1-5` and `resid 1 to 5` compile to the same range node
(`int_or_range` treats `to` and `-` alike), `resid 1 2 3 4 5` compiles to the
explicit enumeration, `intRangeIncl 1 5` enumerates `[1, 2, 3, 4, 5]`, and on
every system and subspace a range child evaluates identically to its
enumeration (both loop `k = i1..i2` over all atoms in the same order) — so
the three query forms select the same index set, ranges inclusive at both
ends. -/
theorem C8_range_syntax_equiv :
    compileSel "resid 1-5" = some (.ok (some (.residKw [.range 1 5]))) ∧
      compileSel "resid 1 to 5" = some (.ok (some (.residKw [.range 1 5]))) ∧
      compileSel "resid 1 2 3 4 5" =
        some (.ok (some (.residKw [.one 1, .one 2, .one 3, .one 4, .one 5]))) ∧
      intRangeIncl 1 5 = [1, 2, 3, 4, 5] ∧
      ∀ (sys : PSystem) (ss : Option (List ℕ)) (a b : ℤ),
        evalNode sys (.residKw [.range a b]) ss =
          evalNode sys (.residKw ((intRangeIncl a b).map IntChild.one)) ss := by
  refine ⟨by decide, by decide, by decide, by decide, ?_⟩
  intro sys ss a b
  show Except.ok (keywordIntEval sys (fun a => a.resid) [.range a b]) =
    Except.ok (keywordIntEval sys (fun a => a.resid) ((intRangeIncl a b).map IntChild.one))
  refine congrArg Except.ok ?_
  rw [keywordIntEval, keywordIntEval]
  simp only [List.flatMap_cons, List.flatMap_nil, List.append_nil]
  generalize intRangeIncl a b = l
  induction l with
  | nil => simp
  | cons k l ih => simp only [List.map_cons, List.flatMap_cons, ih]

/-- C10: a NOT node whose operand selects nothing reads `res1[0]` of an
empty vector — undefined behaviour in the C++, an error in the model —
instead of returning all `N` indices. -/
theorem C10_not_empty_operand_unsafe :
    evalNode sysC2 (.not (.name [.str "XX"])) none =
      .error "eval_node NOT: res1[0] read on an empty operand (undefined behavior)" := by
  decide

end Pteros
